import Mathlib

/-!
# ecto: cells, plasm and the Delay cell

A shallow embedding of `include/ecto/cell.hpp`, `src/lib/plasm.cpp` and
`src/pybindings/cells/Delay.cpp`, followed by the properties proved about it.

Conventions of the embedding.
* `α` is the type of the values carried by tendrils, `S` the type of the state
  of a client implementation instance (the object `new Impl` allocates).
* A cell is a value; a member function that mutates its object returns the new
  object. The process-wide state (function-local statics) is passed explicitly.
* A thrown exception is an `Except.error`; it ends the modelled call.
-/

set_option autoImplicit false

namespace ecto

/-! ## Data model -/

/-- Modelled from the spec: `ecto/tendril.hpp` is not among the sources. A tendril is a
single value slot: its current value, its documentation string and its required flag. -/
structure tendril (α : Type) where
  val : α
  doc : String
  required : Bool
deriving DecidableEq, Repr

/-- Modelled from the spec: `tendril::operator<<` (in `ecto/tendril.hpp`, not among the
sources) copies the value held by the right-hand tendril into the left-hand one. -/
def tendril.write {α : Type} (lhs rhs : tendril α) : tendril α :=
  { lhs with val := rhs.val }

/-- Modelled from the spec: `ecto/tendrils.hpp` is not among the sources. Tendrils map a
name to a tendril; the list is the sequence `begin() .. end()` visits, `first` being the
key and `second` the tendril. -/
abbrev tendrils (α : Type) := List (String × tendril α)

/-- Modelled from the spec: `ecto/edge.hpp` is not among the sources. An edge is a FIFO of
transported values tagged with its source port and its sink port. -/
structure edge (α : Type) where
  from_port : String
  to_port : String
  deque : List (tendril α)
deriving DecidableEq, Repr

/-- The call `edge::size()`. -/
def edge.size {α : Type} (e : edge α) : Nat := e.deque.length

/-- The call `edge::pop_front()`: removes the head of the FIFO. -/
def edge.pop_front {α : Type} (e : edge α) : edge α :=
  { e with deque := e.deque.tail }

/-- Modelled from the spec: `ecto/strand.hpp` is not among the sources. A strand is an
opaque identity; two strands are equal iff their ids are. -/
structure strand where
  id : Nat
deriving DecidableEq, Repr

/-- Modelled from the spec: `ecto/profile.hpp` is not among the sources. Statistics of a
cell: call count, accumulated ticks, and the flag set while inside `process`. -/
structure stats_type where
  ncalls : Nat
  total_ticks : Nat
  on_ : Bool
deriving DecidableEq, Repr

/-- The enum `ReturnCode`. `ReturnCode(i)` converts an int, so a value of the enum is
its numeric value; the enumerators are the constants below. -/
structure ReturnCode where
  value : Int
deriving DecidableEq, Repr

def OK : ReturnCode := ⟨0⟩
def QUIT : ReturnCode := ⟨1⟩
def BREAK : ReturnCode := ⟨2⟩
def CONTINUE : ReturnCode := ⟨3⟩
def UNKNOWN : ReturnCode := ⟨-1⟩

/-- What a `throw` carries, as far as the handlers of `cell_<Impl>::init` tell apart:
an object derived from `std::exception` (its dynamic type name and `what()`), or
anything else. -/
inductive exn where
  | std (type_name : String) (what : String)
  | other
deriving DecidableEq, Repr

/-- How a dispatch ends when it does not return: an exception leaves it, or it
dereferences `impl` while no implementation is allocated (undefined in C++). -/
inductive fault where
  | thrown (e : exn)
  | null_impl
deriving DecidableEq, Repr

/-- The data members of `struct cell`. `address` stands for the address of the object,
which `name()` falls back on. -/
structure cell (α : Type) where
  parameters : tendrils α
  inputs : tendrils α
  outputs : tendrils α
  strand_ : Option strand
  stats : stats_type
  instance_name_ : String
  stop_requested_ : Bool
  configured : Bool
  tick_ : Nat
  address : String

/-- Modelled from the spec: `cell::name()` is defined in `cell.cpp`, not among the sources.
Per its declaration it returns the name of the instance, or the address if none was
given. -/
def cell.name {α : Type} (c : cell α) : String :=
  if c.instance_name_ = "" then c.address else c.instance_name_

/-- Modelled from the spec: `cell::tick()` is defined in `cell.cpp`, not among the sources;
it reads the tick counter. -/
def cell.tick {α : Type} (c : cell α) : Nat := c.tick_

/-- Modelled from the spec: `cell::reset_tick()` is defined in `cell.cpp`, not among the
sources; it zeroes the tick counter. -/
def cell.reset_tick {α : Type} (c : cell α) : cell α := { c with tick_ := 0 }

/-- Which of the three tendrils of a cell `realize_potential` is called on. -/
inductive tendrils_role where
  | parameters
  | inputs
  | outputs
deriving DecidableEq, Repr

/-- The template argument `Impl` of `cell_<Impl>`: the client class. A member function
the class lacks is `none` (what `has_f<Impl>` detects). `CELL_TYPE_NAME` is
`name_of<Impl>()` and identifies the class; `is_threadsafe` is
`detail::is_threadsafe<Impl>`; `ctor` is `new Impl`; `realize_potential` is what
`tendrils::realize_potential(Impl*)` does for this class on the parameters, the inputs
or the outputs of a cell (`ecto/tendrils.hpp` is not among the sources). Member functions get the tendrils by reference to shared tendril
objects, so they return the tendrils as they leave them. -/
structure Impl (α S : Type) where
  CELL_TYPE_NAME : String
  is_threadsafe : Bool
  ctor : Except exn S
  realize_potential : tendrils_role → tendrils α → S → Except exn (tendrils α × S)
  declare_params : Option (tendrils α → Except exn (tendrils α))
  declare_io : Option (tendrils α → tendrils α → tendrils α →
    Except exn (tendrils α × tendrils α))
  configure : Option (S → tendrils α → tendrils α → tendrils α →
    Except exn (S × tendrils α × tendrils α × tendrils α))
  process : Option (S → tendrils α → tendrils α → Except exn (Int × S × tendrils α × tendrils α))
  start : Option (S → Except exn S)
  stop : Option (S → Except exn S)

/-- The class `cell_<Impl>`: a `cell` plus `boost::shared_ptr<Impl> impl`. -/
structure cell_ {α S : Type} (I : Impl α S) extends cell α where
  impl : Option S

/-- A `cell_ptr`: a pointer to a `cell` whose dynamic type is some `cell_<Impl>`. -/
abbrev cell_ptr (α S : Type) : Type := Sigma (fun I : Impl α S => cell_ I)

/-- The `cell` base object a `cell_ptr` points to. -/
def cell_ptr.get {α S : Type} (p : cell_ptr α S) : cell α := p.2.tocell

/-- Writes the `cell` base object behind a `cell_ptr`. -/
def cell_ptr.set {α S : Type} (p : cell_ptr α S) (c : cell α) : cell_ptr α S :=
  ⟨p.1, { p.2 with tocell := c }⟩

/-! ## The class `cell_<Impl>` -/

/-- The part of the state of the process that constructing a cell reads and writes:
`next_strand_id` is an identity no strand constructed so far has, and `strands` holds,
for each instantiation `cell_<Impl>` (named by `CELL_TYPE_NAME`) whose
`init_strand(boost::mpl::false_)` has run, the function-local static `strand_` of that
instantiation. -/
structure statics where
  next_strand_id : Nat
  strands : List (String × strand)
deriving DecidableEq, Repr

/-- The state of a process in which no cell has been constructed yet. -/
def statics.fresh : statics := { next_strand_id := 0, strands := [] }

/-- Modelled from the spec: the constructor `strand::strand()` is not among the sources. A
strand is an opaque identity, so a newly constructed strand gets an identity that no
strand constructed before it has. -/
def strand.new (st : statics) : strand × statics :=
  ({ id := st.next_strand_id }, { st with next_strand_id := st.next_strand_id + 1 })

/-- The declaration `static ecto::strand strand_;` in
`cell_<Impl>::init_strand(boost::mpl::false_)`: a member function of a class template
has its own local statics in each instantiation, and the static is constructed the
first time control passes through its declaration. The result is the static of the
instantiation named `type_name`. -/
def init_strand_static (type_name : String) (st : statics) : strand × statics :=
  match st.strands.lookup type_name with
  | some s => (s, st)
  | none =>
    let n := strand.new st
    (n.1, { n.2 with strands := (type_name, n.1) :: n.2.strands })

/-- Modelled from the spec: the constructor `cell::cell()` is defined in `cell.cpp`, not
among the sources. A new cell is in the state Created: no parameters, inputs or outputs,
no strand, tick 0, statistics at zero, no instance name, not configured. -/
def cell.new {α : Type} (address : String) : cell α :=
  { parameters := []
    inputs := []
    outputs := []
    strand_ := none
    stats := { ncalls := 0, total_ticks := 0, on_ := false }
    instance_name_ := ""
    stop_requested_ := false
    configured := false
    tick_ := 0
    address := address }

/-- The two overloads of `cell_<Impl>::init_strand`, selected by
`detail::is_threadsafe<Impl>`: nothing for a thread-safe class, and
`cell::strand_ = strand_` with the static `strand_` otherwise. -/
def cell_.init_strand {α S : Type} {I : Impl α S} (c : cell_ I) (st : statics) :
    cell_ I × statics :=
  if I.is_threadsafe then (c, st)
  else
    let r := init_strand_static I.CELL_TYPE_NAME st
    ({ c with strand_ := some r.1 }, r.2)

/-- The constructor `cell_<Impl>::cell_()`, for an object allocated at `address`: the
base and the null `impl` are constructed, then `init_strand` runs. -/
def cell_.new {α S : Type} (I : Impl α S) (address : String) (st : statics) :
    cell_ I × statics :=
  cell_.init_strand { tocell := cell.new address, impl := none } st

/-- A dispatch lets an exception thrown by the client member function through. -/
def rethrow {X : Type} : Except exn X → Except fault X
  | .ok x => .ok x
  | .error e => .error (fault.thrown e)

/-- The function `cell_<Impl>::dispatch_declare_params`: `declare_params(params)` with the
overload `has_declare_params` selects. -/
def cell_.dispatch_declare_params {α S : Type} {I : Impl α S} (_c : cell_ I)
    (params : tendrils α) : Except fault (tendrils α) :=
  match I.declare_params with
  | none => .ok params
  | some f => rethrow (f params)

/-- The function `cell_<Impl>::dispatch_declare_io`; the result is `inputs` and `outputs`
as the call leaves them. -/
def cell_.dispatch_declare_io {α S : Type} {I : Impl α S} (_c : cell_ I)
    (params inputs outputs : tendrils α) : Except fault (tendrils α × tendrils α) :=
  match I.declare_io with
  | none => .ok (inputs, outputs)
  | some f => rethrow (f params inputs outputs)

/-- The function `cell_<Impl>::dispatch_configure`; the implemented overload calls
`impl->configure(params, inputs, outputs)`. -/
def cell_.dispatch_configure {α S : Type} {I : Impl α S} (c : cell_ I)
    (params inputs outputs : tendrils α) :
    Except fault (cell_ I × tendrils α × tendrils α × tendrils α) :=
  match I.configure with
  | none => .ok (c, params, inputs, outputs)
  | some f =>
    match c.impl with
    | none => .error fault.null_impl
    | some i =>
      match f i params inputs outputs with
      | .error e => .error (fault.thrown e)
      | .ok r => .ok ({ c with impl := some r.1 }, r.2)

/-- The function `cell_<Impl>::dispatch_process`; the implemented overload returns
`ReturnCode(impl->process(inputs, outputs))`, the other one `OK`. -/
def cell_.dispatch_process {α S : Type} {I : Impl α S} (c : cell_ I)
    (inputs outputs : tendrils α) :
    Except fault (ReturnCode × cell_ I × tendrils α × tendrils α) :=
  match I.process with
  | none => .ok (OK, c, inputs, outputs)
  | some f =>
    match c.impl with
    | none => .error fault.null_impl
    | some i =>
      match f i inputs outputs with
      | .error e => .error (fault.thrown e)
      | .ok r => .ok (ReturnCode.mk r.1, { c with impl := some r.2.1 }, r.2.2)

/-- The function `cell_<Impl>::dispatch_start`. -/
def cell_.dispatch_start {α S : Type} {I : Impl α S} (c : cell_ I) : Except fault (cell_ I) :=
  match I.start with
  | none => .ok c
  | some f =>
    match c.impl with
    | none => .error fault.null_impl
    | some i =>
      match f i with
      | .error e => .error (fault.thrown e)
      | .ok i2 => .ok { c with impl := some i2 }

/-- The function `cell_<Impl>::dispatch_stop`. -/
def cell_.dispatch_stop {α S : Type} {I : Impl α S} (c : cell_ I) : Except fault (cell_ I) :=
  match I.stop with
  | none => .ok c
  | some f =>
    match c.impl with
    | none => .error fault.null_impl
    | some i =>
      match f i with
      | .error e => .error (fault.thrown e)
      | .ok i2 => .ok { c with impl := some i2 }

/-- The function `cell_<Impl>::dispatch_name`. -/
def cell_.dispatch_name {α S : Type} {I : Impl α S} (_c : cell_ I) : String :=
  I.CELL_TYPE_NAME

/-- The function `cell_<Impl>::dispatch_clone`: `new cell_<Impl>()`, allocated at
`address`. -/
def cell_.dispatch_clone {α S : Type} {I : Impl α S} (_c : cell_ I) (address : String)
    (st : statics) : cell_ I × statics :=
  cell_.new I address st

/-- Modelled from the spec: `cell::clone()` is defined in `cell.cpp`, not among the sources.
It produces a fresh uninitialized instance of the same concrete type, which is what the
virtual `dispatch_clone` it is declared next to returns. -/
def cell_.clone {α S : Type} {I : Impl α S} (c : cell_ I) (address : String)
    (st : statics) : cell_ I × statics :=
  c.dispatch_clone address st

/-- The exception `except::CellException` with the error infos `when`, `type`,
`cell_name` and `what` that may be attached to it. -/
structure CellException where
  when : Option String
  type : Option String
  cell_name : Option String
  what : Option String
deriving DecidableEq, Repr

/-- The `try` block of `cell_<Impl>::init`. -/
def cell_.init_try {α S : Type} {I : Impl α S} (c : cell_ I) : Except exn (Bool × cell_ I) :=
  match c.impl with
  | none => do
    let i ← I.ctor
    let r1 ← I.realize_potential tendrils_role.parameters c.parameters i
    let r2 ← I.realize_potential tendrils_role.inputs c.inputs r1.2
    let r3 ← I.realize_potential tendrils_role.outputs c.outputs r2.2
    let c2 : cell_ I :=
      { c with parameters := r1.1, inputs := r2.1, outputs := r3.1, impl := some r3.2 }
    pure (c2.impl.isSome, c2)
  | some _ => pure (c.impl.isSome, c)

/-- The function `cell_<Impl>::init`: the `try` block and its two handlers, the one for
`const std::exception&` and the one for `...`. -/
def cell_.init {α S : Type} {I : Impl α S} (c : cell_ I) :
    Except CellException (Bool × cell_ I) :=
  match c.init_try with
  | .ok r => .ok r
  | .error (exn.std type_name what) =>
    .error { when := some "Construction", type := some type_name,
             cell_name := some c.name, what := some what }
  | .error exn.other =>
    .error { when := some "Construction", type := none,
             cell_name := some c.name, what := some "(unknown exception)" }

/-- Modelled from the spec: `cell::declare_params()` is defined in `cell.cpp`, not among
the sources. Per its declaration it dispatches the parameter declaration code, on the
parameters of the cell. -/
def cell_.declare_params {α S : Type} {I : Impl α S} (c : cell_ I) : Except fault (cell_ I) :=
  match c.dispatch_declare_params c.parameters with
  | .error f => .error f
  | .ok params => .ok { c with parameters := params }

/-- Modelled from the spec: `cell::declare_io()` is defined in `cell.cpp`, not among the
sources. Per its declaration it dispatches the input/output declaration code, on the
parameters, inputs and outputs of the cell. -/
def cell_.declare_io {α S : Type} {I : Impl α S} (c : cell_ I) : Except fault (cell_ I) :=
  match c.dispatch_declare_io c.parameters c.inputs c.outputs with
  | .error f => .error f
  | .ok r => .ok { c with inputs := r.1, outputs := r.2 }

/-- How `cell::configure()` ends when it does not return: `init` threw its
`CellException`, or the dispatch of the client `configure` did not return. -/
inductive configure_failure where
  | construction (x : CellException)
  | dispatch (f : fault)
deriving DecidableEq, Repr

/-- Modelled from the spec: `cell::configure()` is defined in `cell.cpp`, not among the
sources. Per its declaration it takes the parameters, inputs and outputs as already
initialized, allocates the instance of the client class and dispatches the client
configuration code; per the spec the client `configure` runs exactly once, which the
flag `configured` records. -/
def cell_.configure {α S : Type} {I : Impl α S} (c : cell_ I) :
    Except configure_failure (cell_ I) :=
  if c.configured then .ok c
  else
    match c.init with
    | .error x => .error (configure_failure.construction x)
    | .ok r =>
      match r.2.dispatch_configure r.2.parameters r.2.inputs r.2.outputs with
      | .error f => .error (configure_failure.dispatch f)
      | .ok r2 =>
        .ok { r2.1 with parameters := r2.2.1, inputs := r2.2.2.1, outputs := r2.2.2.2,
                        configured := true }

/-- Specification: a cell driven through `declare_params`, then `declare_io`, then
`configure`, as the spec words what `configure_all` does to each cell. -/
def cell_.declare_params_declare_io_configure {α S : Type} {I : Impl α S} (c : cell_ I) :
    Except configure_failure (cell_ I) :=
  match c.declare_params with
  | .error f => .error (configure_failure.dispatch f)
  | .ok c1 =>
    match c1.declare_io with
    | .error f => .error (configure_failure.dispatch f)
    | .ok c2 => c2.configure

/-! ## The graph of a plasm -/

/-- An edge descriptor of `graph_t` with what it resolves to: `source(ed, g)`,
`target(ed, g)` and the edge property `g[ed]`. -/
structure edge_descriptor (α : Type) where
  source : Nat
  target : Nat
  e : edge α
deriving DecidableEq, Repr

/-- Modelled from the spec: `ecto/impl/graph_types.hpp` is not among the sources. `graph_t`
is a directed multigraph whose vertices carry a `cell_ptr` and whose edges carry an
`edge_ptr`; a vertex descriptor is the position of the vertex in `vertices(g)`. -/
structure graph_t (α S : Type) where
  vertices : List (cell_ptr α S)
  edges : List (edge_descriptor α)

/-- Modelled from the spec: `plasm/impl.hpp` is not among the sources; of `plasm::impl` only
the graph and `mv_map` are used by the functions embedded here. `mv_map` maps each
inserted cell to its vertex; the list holds the vertex (`second`) of each entry in the
order iteration visits them, the cell (`first`) of an entry being the cell that vertex
carries. -/
structure plasm_impl (α S : Type) where
  graph : graph_t α S
  mv_map : List Nat

/-- The class `plasm`. -/
structure plasm (α S : Type) where
  impl_ : plasm_impl α S

/-- The range `boost::in_edges(v, g)`. -/
def in_edges {α S : Type} (v : Nat) (g : graph_t α S) : List (edge_descriptor α) :=
  g.edges.filter (fun ed => ed.target == v)

/-- The range `boost::out_edges(v, g)`. -/
def out_edges {α S : Type} (v : Nat) (g : graph_t α S) : List (edge_descriptor α) :=
  g.edges.filter (fun ed => ed.source == v)

/-- The exception `except::NotConnected` with its `tendril_key` and `cell_name`. -/
structure NotConnected where
  tendril_key : String
  cell_name : String
deriving DecidableEq, Repr

/-- The two `for` loops of `plasm::check` over the tendrils of a cell: throws at the first
tendril that is required and whose key is not in the set `connected`. -/
def check_tendrils {α : Type} (name : String) (connected : List String) :
    tendrils α → Except NotConnected Unit
  | [] => .ok ()
  | b_tend :: rest =>
    if b_tend.2.required && connected.count b_tend.1 == 0 then
      .error { tendril_key := b_tend.1, cell_name := name }
    else check_tendrils name connected rest

/-- The body of the `while (begin != end)` loop of `plasm::check` for the vertex `v`
holding the cell `m`. The sets `in_connected` and `out_connected` are built from the
`to_port` of the in-edges and the `from_port` of the out-edges. -/
def check_vertex {α S : Type} (g : graph_t α S) (v : Nat) (m : cell α) :
    Except NotConnected Unit :=
  let in_connected := (in_edges v g).map (fun ed => ed.e.to_port)
  match check_tendrils m.name in_connected m.inputs with
  | .error x => .error x
  | .ok () =>
    let out_connected := (out_edges v g).map (fun ed => ed.e.from_port)
    check_tendrils m.name out_connected m.outputs

/-- The `while (begin != end)` loop of `plasm::check`, `begin` being the descriptor of
the first vertex of `rest`. -/
def check_loop {α S : Type} (g : graph_t α S) : Nat → List (cell_ptr α S) →
    Except NotConnected Unit
  | _, [] => .ok ()
  | begin_, p :: rest =>
    match check_vertex g begin_ p.get with
    | .error x => .error x
    | .ok () => check_loop g (begin_ + 1) rest

/-- The function `plasm::check`. -/
def plasm.check {α S : Type} (p : plasm α S) : Except NotConnected Unit :=
  check_loop p.impl_.graph 0 p.impl_.graph.vertices

/-- The inner loop `while (e->size() > 0) e->pop_front();` of `plasm::reset_ticks`;
`pops` counts the `pop_front` calls made so far. -/
def drain_loop {α : Type} (e : edge α) (pops : Nat) : edge α × Nat :=
  if e.size > 0 then drain_loop e.pop_front (pops + 1) else (e, pops)
termination_by e.size
decreasing_by
  simp only [edge.size, edge.pop_front, List.length_tail] at *
  omega

/-- The first block of `plasm::reset_ticks`: the loop over `vertices(impl_->graph)`
calling `reset_tick()` on the cell of each vertex. -/
def reset_tick_loop {α S : Type} : List (cell_ptr α S) → List (cell_ptr α S)
  | [] => []
  | c :: rest => c.set c.get.reset_tick :: reset_tick_loop rest

/-- The second block of `plasm::reset_ticks`: the loop over `edges(impl_->graph)`
draining the edge of each edge descriptor. -/
def drain_edges_loop {α : Type} : List (edge_descriptor α) → List (edge_descriptor α)
  | [] => []
  | ed :: rest => { ed with e := (drain_loop ed.e 0).1 } :: drain_edges_loop rest

/-- The function `plasm::reset_ticks`. -/
def plasm.reset_ticks {α S : Type} (p : plasm α S) : plasm α S :=
  { p with impl_ := { p.impl_ with graph :=
      { vertices := reset_tick_loop p.impl_.graph.vertices
        edges := drain_edges_loop p.impl_.graph.edges } } }

/-- The body of the `BOOST_FOREACH` of `plasm::configure_all` for the entry of `mv_map`
whose vertex is `v`: `x.first->configure()`, `x.first` being the cell the vertex `v`
carries. -/
def configure_entry {α S : Type} (g : graph_t α S) (v : Nat) :
    Except configure_failure (graph_t α S) :=
  match g.vertices[v]? with
  | none => .ok g
  | some m =>
    match m.2.configure with
    | .error x => .error x
    | .ok c => .ok { g with vertices := g.vertices.set v ⟨m.1, c⟩ }

/-- The `BOOST_FOREACH` of `plasm::configure_all` over the entries of `mv_map`. -/
def configure_loop {α S : Type} (g : graph_t α S) : List Nat →
    Except configure_failure (graph_t α S)
  | [] => .ok g
  | v :: rest =>
    match configure_entry g v with
    | .error x => .error x
    | .ok g2 => configure_loop g2 rest

/-- The function `plasm::configure_all`. -/
def plasm.configure_all {α S : Type} (p : plasm α S) : Except configure_failure (plasm α S) :=
  match configure_loop p.impl_.graph p.impl_.mv_map with
  | .error x => .error x
  | .ok g => .ok { p with impl_ := { p.impl_ with graph := g } }

/-! ## The Delay cell -/

/-- The data members of `struct Delay`: `num_` is the int the spore `num_` refers to once
`configure` has bound it to the parameter `num`, `queue_` the `std::queue<tendril>`
(front first). -/
structure Delay (α : Type) where
  num_ : Int
  queue_ : List (tendril α)
deriving DecidableEq, Repr

/-- The conversion of an `int` to `std::size_t` (of `w` bits), as the usual arithmetic
conversions apply it to `*num_` in `queue_.size() > *num_`. -/
def size_t_of_int (w : Nat) (i : Int) : Nat := (i % (2 : Int) ^ w).toNat

/-- A Delay right after `new Delay` and `configure` with the parameter `num` holding
`num`: the queue is empty and `num_` refers to `num`. -/
def Delay.configured {α : Type} (num : Int) : Delay α := { num_ := num, queue_ := [] }

/-- The function `Delay::process`, on a platform whose `std::size_t` has `w` bits. `in_in`
is the tendril `in["in"]`, `out_out` the tendril `out["out"]`; the result is the int
returned, the Delay and the tendril `out["out"]` as the call leaves them. -/
def Delay.process {α : Type} (w : Nat) (d : Delay α) (in_in out_out : tendril α) :
    Int × Delay α × tendril α :=
  let queue_ := d.queue_ ++ [in_in]
  if queue_.length % 2 ^ w > size_t_of_int w d.num_ then
    (OK.value,
      { d with queue_ := queue_.tail },
      out_out.write (queue_.head (List.append_ne_nil_of_right_ne_nil _ (List.cons_ne_nil _ _))))
  else
    (BREAK.value, { d with queue_ := queue_ }, out_out)

/-- The Delay and the tendril `out["out"]` after `process` has been called once for each
tendril of `xs` in turn, `xs` being the successive contents of `in["in"]`. -/
def Delay.run {α : Type} (w : Nat) : Delay α × tendril α → List (tendril α) →
    Delay α × tendril α
  | st, [] => st
  | st, x :: xs => Delay.run w (st.1.process w x st.2).2 xs

/-- What each of the successive calls of `process` returns and leaves in `out["out"]`,
one entry per tendril of `xs`. -/
def Delay.trace {α : Type} (w : Nat) : Delay α × tendril α → List (tendril α) →
    List (Int × tendril α)
  | _, [] => []
  | st, x :: xs =>
    let r := st.1.process w x st.2
    (r.1, r.2.2) :: Delay.trace w r.2 xs

/-! ## Specification predicates for `plasm::check` -/

/-- Specification predicate: the key `k` names a required input of the cell `m` at vertex
`v` that is the `to_port` of no edge entering `v`. -/
def unconnected_required_input {α S : Type} (g : graph_t α S) (v : Nat) (m : cell α)
    (k : String) : Prop :=
  (∃ t, (k, t) ∈ m.inputs ∧ t.required = true) ∧
    ¬ ∃ ed ∈ g.edges, ed.target = v ∧ ed.e.to_port = k

/-- Specification predicate: the key `k` names a required output of the cell `m` at vertex
`v` that is the `from_port` of no edge leaving `v`. -/
def unconnected_required_output {α S : Type} (g : graph_t α S) (v : Nat) (m : cell α)
    (k : String) : Prop :=
  (∃ t, (k, t) ∈ m.outputs ∧ t.required = true) ∧
    ¬ ∃ ed ∈ g.edges, ed.source = v ∧ ed.e.from_port = k

/-! ## Concrete inputs -/

/-- A client class without any of the optional member functions. -/
def plain_Impl (type_name : String) (threadsafe : Bool) : Impl Int Unit :=
  { CELL_TYPE_NAME := type_name
    is_threadsafe := threadsafe
    ctor := .ok ()
    realize_potential := fun _ t i => .ok (t, i)
    declare_params := none
    declare_io := none
    configure := none
    process := none
    start := none
    stop := none }

/-- A cell named `name` with the given ports, of the class `plain_Impl "Plain" false`. -/
def plain_cell (name : String) (inputs outputs : tendrils Int) (tick : Nat) :
    cell_ptr Int Unit :=
  ⟨plain_Impl "Plain" false,
    { parameters := []
      inputs := inputs
      outputs := outputs
      strand_ := none
      stats := { ncalls := tick, total_ticks := 0, on_ := false }
      instance_name_ := name
      stop_requested_ := false
      configured := true
      tick_ := tick
      address := "0x0"
      impl := none }⟩

/-- Scenario S5: a cell `A` with an output, a cell `B` with a required input `in`, and
no edge. -/
def S5_plasm : plasm Int Unit :=
  { impl_ :=
      { graph :=
          { vertices :=
              [plain_cell "A" [] [("out", { val := 0, doc := "", required := false })] 0,
               plain_cell "B" [("in", { val := 0, doc := "", required := true })] [] 0]
            edges := [] }
        mv_map := [0, 1] } }

/-- A plasm in the middle of a run: two cells with ticks 3 and 5 and an edge between them
holding two values. -/
def running_plasm : plasm Int Unit :=
  { impl_ :=
      { graph :=
          { vertices :=
              [plain_cell "A" [] [("out", { val := 0, doc := "", required := true })] 3,
               plain_cell "B" [("in", { val := 0, doc := "", required := true })] [] 5]
            edges :=
              [{ source := 0, target := 1,
                 e := { from_port := "out", to_port := "in",
                        deque := [{ val := 7, doc := "", required := false },
                                  { val := 8, doc := "", required := false }] } }] }
        mv_map := [1, 0] } }

/-- A client class that has `process` only; its `process` returns `code` and touches
nothing. -/
def returning_Impl (code : Int) : Impl Int Unit :=
  { plain_Impl "Returning" true with
    process := some (fun i inputs outputs => .ok (code, i, inputs, outputs)) }

/-- A client class whose constructor throws `e`. -/
def throwing_Impl (e : exn) : Impl Int Unit :=
  { plain_Impl "Throwing" true with ctor := .error e }

/-- A tendril holding the int `i`. -/
def int_tendril (i : Int) : tendril Int := { val := i, doc := "", required := false }

/-- Scenario S2: the inputs 1, 2, 3, 4, 5. -/
def S2_inputs : List (tendril Int) := [1, 2, 3, 4, 5].map int_tendril

/-- A client class that, like Delay, declares a parameter `num`, an input `in` and an
output `out`, and has a `configure` that changes nothing. -/
def declaring_Impl : Impl Int Unit :=
  { plain_Impl "Declaring" false with
    declare_params := some (fun params => .ok (params ++ [("num", int_tendril 2)]))
    declare_io := some (fun _ inputs outputs =>
      .ok (inputs ++ [("in", int_tendril 0)], outputs ++ [("out", int_tendril 0)]))
    configure := some (fun i params inputs outputs => .ok (i, params, inputs, outputs)) }

/-- A cell of the class `declaring_Impl` as its constructor leaves it. -/
def created_cell : cell_ declaring_Impl := cell_.mk (cell.new "0x1") none

/-- A plasm holding `created_cell` and nothing else. -/
def created_plasm : plasm Int Unit :=
  { impl_ :=
      { graph := { vertices := [⟨declaring_Impl, created_cell⟩], edges := [] }
        mv_map := [0] } }

/-! ## Theorems -/

section check_lemmas

variable {α S : Type}

theorem check_tendrils_ok_iff (name : String) (connected : List String) (ts : tendrils α) :
    check_tendrils name connected ts = .ok () ↔
      ∀ k t, (k, t) ∈ ts → t.required = true → k ∈ connected := by
  induction ts with
  | nil => simp [check_tendrils]
  | cons b rest ih =>
    obtain ⟨k0, t0⟩ := b
    by_cases h : t0.required = true ∧ k0 ∉ connected
    · have hc : (t0.required && connected.count k0 == 0) = true := by
        simp [h.1, List.count_eq_zero, h.2]
      simp only [check_tendrils, hc, if_true]
      constructor
      · intro hh; cases hh
      · intro hh; exact absurd (hh k0 t0 (List.mem_cons_self _ _) h.1) h.2
    · have hc : (t0.required && connected.count k0 == 0) = false := by
        by_cases hr : t0.required = true
        · have hk : k0 ∈ connected := by
            by_contra hk; exact h ⟨hr, hk⟩
          have : connected.count k0 ≠ 0 := by
            intro h0; exact (List.count_eq_zero.mp h0) hk
          simp [hr, this]
        · simp [hr]
      simp only [check_tendrils, hc, ih, Bool.false_eq_true, if_false]
      constructor
      · intro hh k t hm hr
        rcases List.mem_cons.mp hm with heq | hm
        · cases heq
          by_contra hk; exact h ⟨hr, hk⟩
        · exact hh k t hm hr
      · intro hh k t hm hr
        exact hh k t (List.mem_cons_of_mem _ hm) hr

theorem check_tendrils_error (name : String) (connected : List String) (ts : tendrils α)
    (x : NotConnected) (h : check_tendrils name connected ts = .error x) :
    x.cell_name = name ∧ x.tendril_key ∉ connected ∧
      ∃ t, (x.tendril_key, t) ∈ ts ∧ t.required = true := by
  induction ts with
  | nil => simp [check_tendrils] at h
  | cons b rest ih =>
    obtain ⟨k0, t0⟩ := b
    by_cases hc : (t0.required && connected.count k0 == 0) = true
    · simp only [check_tendrils, hc, if_true] at h
      cases h
      simp only [Bool.and_eq_true, beq_iff_eq, List.count_eq_zero] at hc
      exact ⟨rfl, hc.2, t0, List.mem_cons_self _ _, hc.1⟩
    · simp only [check_tendrils, hc] at h
      obtain ⟨h1, h2, t, ht, hr⟩ := ih h
      exact ⟨h1, h2, t, List.mem_cons_of_mem _ ht, hr⟩

theorem mem_in_connected (g : graph_t α S) (v : Nat) (k : String) :
    k ∈ (in_edges v g).map (fun ed => ed.e.to_port) ↔
      ∃ ed ∈ g.edges, ed.target = v ∧ ed.e.to_port = k := by
  simp only [in_edges, List.mem_map, List.mem_filter, beq_iff_eq]
  constructor
  · rintro ⟨ed, ⟨h1, h2⟩, h3⟩; exact ⟨ed, h1, h2, h3⟩
  · rintro ⟨ed, h1, h2, h3⟩; exact ⟨ed, ⟨h1, h2⟩, h3⟩

theorem mem_out_connected (g : graph_t α S) (v : Nat) (k : String) :
    k ∈ (out_edges v g).map (fun ed => ed.e.from_port) ↔
      ∃ ed ∈ g.edges, ed.source = v ∧ ed.e.from_port = k := by
  simp only [out_edges, List.mem_map, List.mem_filter, beq_iff_eq]
  constructor
  · rintro ⟨ed, ⟨h1, h2⟩, h3⟩; exact ⟨ed, h1, h2, h3⟩
  · rintro ⟨ed, h1, h2, h3⟩; exact ⟨ed, ⟨h1, h2⟩, h3⟩

theorem check_vertex_ok_iff (g : graph_t α S) (v : Nat) (m : cell α) :
    check_vertex g v m = .ok () ↔
      (∀ k, ¬ unconnected_required_input g v m k) ∧
      (∀ k, ¬ unconnected_required_output g v m k) := by
  have hin := check_tendrils_ok_iff m.name ((in_edges v g).map (fun ed => ed.e.to_port)) m.inputs
  have hout :=
    check_tendrils_ok_iff m.name ((out_edges v g).map (fun ed => ed.e.from_port)) m.outputs
  simp only [mem_in_connected] at hin
  simp only [mem_out_connected] at hout
  unfold check_vertex
  simp only [unconnected_required_input, unconnected_required_output]
  cases hci : check_tendrils m.name ((in_edges v g).map (fun ed => ed.e.to_port)) m.inputs with
  | error x =>
    simp only [false_iff, reduceCtorEq]
    rintro ⟨hall, _⟩
    have : ∀ k t, (k, t) ∈ m.inputs → t.required = true →
        ∃ ed ∈ g.edges, ed.target = v ∧ ed.e.to_port = k := by
      intro k t hm hr
      by_contra hne
      exact hall k ⟨⟨t, hm, hr⟩, hne⟩
    rw [hin.mpr this] at hci
    cases hci
  | ok u =>
    cases u
    have hin' := hin.mp hci
    simp only [hout]
    constructor
    · intro ho
      refine ⟨?_, ?_⟩
      · rintro k ⟨⟨t, hm, hr⟩, hne⟩; exact hne (hin' k t hm hr)
      · rintro k ⟨⟨t, hm, hr⟩, hne⟩; exact hne (ho k t hm hr)
    · rintro ⟨_, ho⟩ k t hm hr
      by_contra hne
      exact ho k ⟨⟨t, hm, hr⟩, hne⟩

theorem check_vertex_error (g : graph_t α S) (v : Nat) (m : cell α) (x : NotConnected)
    (h : check_vertex g v m = .error x) :
    x.cell_name = m.name ∧
      (unconnected_required_input g v m x.tendril_key ∨
        unconnected_required_output g v m x.tendril_key) := by
  simp only [check_vertex] at h
  cases hci : check_tendrils m.name ((in_edges v g).map (fun ed => ed.e.to_port)) m.inputs with
  | error y =>
    simp only [hci] at h
    cases h
    obtain ⟨h1, h2, t, ht, hr⟩ := check_tendrils_error _ _ _ _ hci
    rw [mem_in_connected] at h2
    exact ⟨h1, Or.inl ⟨⟨t, ht, hr⟩, h2⟩⟩
  | ok u =>
    cases u
    simp only [hci] at h
    obtain ⟨h1, h2, t, ht, hr⟩ := check_tendrils_error _ _ _ _ h
    rw [mem_out_connected] at h2
    exact ⟨h1, Or.inr ⟨⟨t, ht, hr⟩, h2⟩⟩

theorem check_loop_ok_iff (g : graph_t α S) (b : Nat) (vs : List (cell_ptr α S)) :
    check_loop g b vs = .ok () ↔
      ∀ i p, vs[i]? = some p → check_vertex g (b + i) p.get = .ok () := by
  induction vs generalizing b with
  | nil => simp [check_loop]
  | cons q rest ih =>
    unfold check_loop
    cases hv : check_vertex g b q.get with
    | error x =>
      simp only [false_iff, reduceCtorEq]
      intro hall
      have := hall 0 q (by simp)
      rw [Nat.add_zero, hv] at this
      cases this
    | ok u =>
      cases u
      simp only [ih]
      constructor
      · intro hh i p hp
        cases i with
        | zero =>
          simp only [List.getElem?_cons_zero, Option.some.injEq] at hp
          subst hp; simpa using hv
        | succ j =>
          simp only [List.getElem?_cons_succ] at hp
          have := hh j p hp
          rwa [Nat.add_assoc, Nat.add_comm 1 j] at this
      · intro hh i p hp
        have := hh (i + 1) p (by simpa using hp)
        rwa [Nat.add_assoc, Nat.add_comm 1 i]

theorem check_loop_error (g : graph_t α S) (b : Nat) (vs : List (cell_ptr α S))
    (x : NotConnected) (h : check_loop g b vs = .error x) :
    ∃ i p, vs[i]? = some p ∧ check_vertex g (b + i) p.get = .error x ∧
      ∀ j q, j < i → vs[j]? = some q → check_vertex g (b + j) q.get = .ok () := by
  induction vs generalizing b with
  | nil => simp [check_loop] at h
  | cons q rest ih =>
    unfold check_loop at h
    cases hv : check_vertex g b q.get with
    | error y =>
      rw [hv] at h
      cases h
      exact ⟨0, q, by simp, by simpa using hv, by intro j _ hj; omega⟩
    | ok u =>
      cases u
      rw [hv] at h
      obtain ⟨i, p, hp, he, hbefore⟩ := ih (b + 1) h
      refine ⟨i + 1, p, by simpa using hp, ?_, ?_⟩
      · rwa [Nat.add_assoc, Nat.add_comm 1 i] at he
      · intro j r hj hr
        cases j with
        | zero =>
          simp only [List.getElem?_cons_zero, Option.some.injEq] at hr
          subst hr; simpa using hv
        | succ j' =>
          simp only [List.getElem?_cons_succ] at hr
          have := hbefore j' r (by omega) hr
          rwa [Nat.add_assoc, Nat.add_comm 1 j'] at this

end check_lemmas

/-- C1: `plasm::check` returns normally if and only if, at every vertex of the graph, each
required input of the cell is the `to_port` of an edge entering the vertex and each
required output is the `from_port` of an edge leaving it; when it does not return
normally it throws `NotConnected`. -/
theorem check_succeeds_iff_required_connected {α S : Type} (p : plasm α S) :
    (p.check = .ok () ↔
      ∀ v m, p.impl_.graph.vertices[v]? = some m →
        (∀ k t, (k, t) ∈ m.get.inputs → t.required = true →
          ∃ ed ∈ p.impl_.graph.edges, ed.target = v ∧ ed.e.to_port = k) ∧
        (∀ k t, (k, t) ∈ m.get.outputs → t.required = true →
          ∃ ed ∈ p.impl_.graph.edges, ed.source = v ∧ ed.e.from_port = k)) ∧
    (p.check ≠ .ok () → ∃ x : NotConnected, p.check = .error x) := by
  refine ⟨?_, ?_⟩
  · unfold plasm.check
    rw [check_loop_ok_iff]
    constructor
    · intro h v m hm
      have hv := (check_vertex_ok_iff _ _ _).mp (h v m hm)
      rw [Nat.zero_add] at hv
      refine ⟨?_, ?_⟩
      · intro k t hk hr
        by_contra hne
        exact hv.1 k ⟨⟨t, hk, hr⟩, hne⟩
      · intro k t hk hr
        by_contra hne
        exact hv.2 k ⟨⟨t, hk, hr⟩, hne⟩
    · intro h v m hm
      rw [Nat.zero_add, check_vertex_ok_iff]
      refine ⟨?_, ?_⟩
      · rintro k ⟨⟨t, hk, hr⟩, hne⟩; exact hne ((h v m hm).1 k t hk hr)
      · rintro k ⟨⟨t, hk, hr⟩, hne⟩; exact hne ((h v m hm).2 k t hk hr)
  · intro h
    cases hc : p.check with
    | error x => exact ⟨x, rfl⟩
    | ok u => cases u; exact absurd hc h

/-- C1, at scenario S5: the required input `in` of `B` has no entering edge, so `check`
does not return normally. -/
theorem check_succeeds_iff_required_connected_witness :
    S5_plasm.check ≠ .ok () ∧ ∃ x : NotConnected, S5_plasm.check = .error x :=
  have hne : S5_plasm.check ≠ .ok () := fun h =>
    Except.noConfusion
      (h.symm.trans (rfl : S5_plasm.check = .error { tendril_key := "in", cell_name := "B" }))
  ⟨hne, (check_succeeds_iff_required_connected S5_plasm).2 hne⟩

/-- C2: when `plasm::check` throws, the `NotConnected` it throws carries the name of a cell
of the graph and a key that is a required input of that cell with no entering edge on
it, or a required output of that cell with no leaving edge on it; and when a required
input `k` of a cell `B` has no entering edge and that is the only violation in the
graph, `check` throws `NotConnected` with the name of `B` and the key `k`. -/
theorem check_error_names_unconnected_required_port {α S : Type} (p : plasm α S) :
    (∀ x, p.check = .error x →
      ∃ v m, p.impl_.graph.vertices[v]? = some m ∧ x.cell_name = m.get.name ∧
        (unconnected_required_input p.impl_.graph v m.get x.tendril_key ∨
          unconnected_required_output p.impl_.graph v m.get x.tendril_key)) ∧
    (∀ v B k, p.impl_.graph.vertices[v]? = some B →
      unconnected_required_input p.impl_.graph v B.get k →
      (∀ v2 m2 k2, p.impl_.graph.vertices[v2]? = some m2 →
        (unconnected_required_input p.impl_.graph v2 m2.get k2 → v2 = v ∧ k2 = k) ∧
        ¬ unconnected_required_output p.impl_.graph v2 m2.get k2) →
      p.check = .error { tendril_key := k, cell_name := B.get.name }) := by
  have first : ∀ x, p.check = .error x →
      ∃ v m, p.impl_.graph.vertices[v]? = some m ∧ x.cell_name = m.get.name ∧
        (unconnected_required_input p.impl_.graph v m.get x.tendril_key ∨
          unconnected_required_output p.impl_.graph v m.get x.tendril_key) := by
    intro x hx
    obtain ⟨i, q, hq, he, _⟩ := check_loop_error _ _ _ _ hx
    rw [Nat.zero_add] at he
    obtain ⟨h1, h2⟩ := check_vertex_error _ _ _ _ he
    exact ⟨i, q, hq, h1, h2⟩
  refine ⟨first, ?_⟩
  intro v B k hB hviol honly
  cases hc : p.check with
  | ok u =>
    cases u
    exfalso
    unfold plasm.check at hc
    have hv := (check_loop_ok_iff _ _ _).mp hc v B hB
    rw [Nat.zero_add, check_vertex_ok_iff] at hv
    exact hv.1 k hviol
  | error x =>
    obtain ⟨v2, m2, hm2, hname, hor⟩ := first x hc
    rcases hor with hin | hout
    · obtain ⟨hv, hk⟩ := (honly v2 m2 x.tendril_key hm2).1 hin
      subst hv
      rw [hB] at hm2
      cases hm2
      obtain ⟨key, cn⟩ := x
      simp only at hk hname
      rw [hk, hname]
    · exact absurd hout (honly v2 m2 x.tendril_key hm2).2

/-- C2, at scenario S5: `B` with the required input `in` and no entering edge is the only
violation, and `check` throws `NotConnected` naming `B` and `in`. -/
theorem check_error_names_unconnected_required_port_witness :
    S5_plasm.check = .error { tendril_key := "in", cell_name := "B" } := by
  refine (check_error_names_unconnected_required_port S5_plasm).2 1
    (plain_cell "B" [("in", { val := 0, doc := "", required := true })] [] 0) "in" rfl
    ⟨⟨_, List.mem_singleton.mpr rfl, rfl⟩, by simp [S5_plasm]⟩ ?_
  intro v2 m2 k2 hm2
  match v2, hm2 with
  | 0, hm2 =>
    simp only [S5_plasm, List.getElem?_cons_zero, Option.some.injEq] at hm2
    subst hm2
    refine ⟨?_, ?_⟩
    · rintro ⟨⟨t, ht, _⟩, _⟩; simp [plain_cell, cell_ptr.get] at ht
    · rintro ⟨⟨t, ht, hr⟩, _⟩
      simp [plain_cell, cell_ptr.get] at ht
      rw [ht.2] at hr
      cases hr
  | 1, hm2 =>
    simp only [S5_plasm, List.getElem?_cons_succ, List.getElem?_cons_zero,
      Option.some.injEq] at hm2
    subst hm2
    refine ⟨?_, ?_⟩
    · rintro ⟨⟨t, ht, _⟩, _⟩
      simp [plain_cell, cell_ptr.get] at ht
      exact ⟨rfl, ht.1⟩
    · rintro ⟨⟨t, ht, _⟩, _⟩; simp [plain_cell, cell_ptr.get] at ht
  | n + 2, hm2 => simp [S5_plasm] at hm2

section reset_lemmas

variable {α S : Type}

theorem drain_loop_deque (fp tp : String) (d : List (tendril α)) (pops : Nat) :
    drain_loop { from_port := fp, to_port := tp, deque := d } pops =
      ({ from_port := fp, to_port := tp, deque := [] }, pops + d.length) := by
  induction d generalizing pops with
  | nil =>
    rw [drain_loop]
    simp [edge.size]
  | cons x rest ih =>
    rw [drain_loop]
    simp only [edge.size, List.length_cons, Nat.succ_pos, if_true, gt_iff_lt, edge.pop_front,
      List.tail_cons]
    rw [ih]
    simp only [Prod.mk.injEq, true_and]
    omega

theorem drain_loop_eq (e : edge α) (pops : Nat) :
    drain_loop e pops = ({ e with deque := [] }, pops + e.size) := by
  obtain ⟨fp, tp, d⟩ := e
  exact drain_loop_deque fp tp d pops

theorem reset_tick_loop_length (vs : List (cell_ptr α S)) :
    (reset_tick_loop vs).length = vs.length := by
  induction vs with
  | nil => rfl
  | cons c rest ih => simp [reset_tick_loop, ih]

theorem reset_tick_loop_tick (vs : List (cell_ptr α S)) :
    ∀ m ∈ reset_tick_loop vs, m.get.tick = 0 := by
  induction vs with
  | nil => simp [reset_tick_loop]
  | cons c rest ih =>
    intro m hm
    simp only [reset_tick_loop, List.mem_cons] at hm
    rcases hm with h | h
    · subst h; rfl
    · exact ih m h

theorem drain_edges_loop_length (es : List (edge_descriptor α)) :
    (drain_edges_loop es).length = es.length := by
  induction es with
  | nil => rfl
  | cons c rest ih => simp [drain_edges_loop, ih]

theorem drain_edges_loop_size (es : List (edge_descriptor α)) :
    ∀ ed ∈ drain_edges_loop es, ed.e.size = 0 := by
  induction es with
  | nil => simp [drain_edges_loop]
  | cons c rest ih =>
    intro ed hed
    simp only [drain_edges_loop, List.mem_cons] at hed
    rcases hed with h | h
    · subst h; simp [drain_loop_eq, edge.size]
    · exact ih ed h

end reset_lemmas

/-- C3: whatever the tick counters and edge contents of a plasm, after `reset_ticks` the
graph has as many vertices and edges as before, every cell of the graph has tick 0 and
every edge of the graph has size 0. -/
theorem reset_ticks_zeroes_ticks_and_drains_edges {α S : Type} (p : plasm α S) :
    p.reset_ticks.impl_.graph.vertices.length = p.impl_.graph.vertices.length ∧
    p.reset_ticks.impl_.graph.edges.length = p.impl_.graph.edges.length ∧
    (∀ m ∈ p.reset_ticks.impl_.graph.vertices, m.get.tick = 0) ∧
    (∀ ed ∈ p.reset_ticks.impl_.graph.edges, ed.e.size = 0) :=
  ⟨reset_tick_loop_length _, drain_edges_loop_length _, reset_tick_loop_tick _,
    drain_edges_loop_size _⟩

/-- C3, at a plasm with ticks 3 and 5 and an edge holding two values: after `reset_ticks`
its two cells have tick 0 and its edge is empty. -/
theorem reset_ticks_zeroes_ticks_and_drains_edges_witness :
    running_plasm.reset_ticks.impl_.graph.vertices.length = 2 ∧
    running_plasm.reset_ticks.impl_.graph.edges.length = 1 ∧
    (∀ m ∈ running_plasm.reset_ticks.impl_.graph.vertices, m.get.tick = 0) ∧
    (∀ ed ∈ running_plasm.reset_ticks.impl_.graph.edges, ed.e.size = 0) :=
  have h := reset_ticks_zeroes_ticks_and_drains_edges running_plasm
  ⟨h.1, h.2.1, h.2.2.1, h.2.2.2⟩

section delay_lemmas

variable {α : Type}

theorem size_t_of_int_natCast (w n : Nat) (h : n < 2 ^ w) : size_t_of_int w (n : Int) = n := by
  unfold size_t_of_int
  have hlt : (n : Int) < (2 : Int) ^ w := by exact_mod_cast h
  rw [Int.emod_eq_of_lt (Int.natCast_nonneg n) hlt]
  exact Int.toNat_natCast n

theorem Delay.process_ok_of_le (w n : Nat) (hn : n + 1 < 2 ^ w) (xs : List (tendril α))
    (x out y : tendril α) (hle : n ≤ xs.length) (hy : (xs ++ [x])[xs.length - n]? = some y) :
    Delay.process w { num_ := (n : Int), queue_ := xs.drop (xs.length - n) } x out =
      (OK.value, { num_ := (n : Int), queue_ := (xs ++ [x]).drop (xs.length + 1 - n) },
        out.write y) := by
  have hq : xs.drop (xs.length - n) ++ [x] = (xs ++ [x]).drop (xs.length - n) :=
    (List.drop_append_of_le_length (Nat.sub_le _ _)).symm
  have hlen : (xs.drop (xs.length - n) ++ [x]).length = n + 1 := by
    simp only [List.length_append, List.length_drop, List.length_singleton]
    omega
  have hcond : (xs.drop (xs.length - n) ++ [x]).length % 2 ^ w > size_t_of_int w (n : Int) := by
    rw [hlen, Nat.mod_eq_of_lt hn, size_t_of_int_natCast w n (by omega)]
    omega
  have hhead : ∀ hne, (xs.drop (xs.length - n) ++ [x]).head hne = y := by
    intro hne
    rw [List.head_eq_iff_head?_eq_some, hq, List.head?_drop]
    exact hy
  have htail : (xs.drop (xs.length - n) ++ [x]).tail = (xs ++ [x]).drop (xs.length + 1 - n) := by
    rw [hq, List.tail_drop]
    congr 1
    omega
  simp only [Delay.process, hcond, if_true, hhead, htail]

theorem Delay.process_break_of_lt (w n : Nat) (hn : n + 1 < 2 ^ w) (xs : List (tendril α))
    (x out : tendril α) (hlt : xs.length < n) :
    Delay.process w { num_ := (n : Int), queue_ := xs.drop (xs.length - n) } x out =
      (BREAK.value, { num_ := (n : Int), queue_ := (xs ++ [x]).drop (xs.length + 1 - n) },
        out) := by
  have h0 : xs.length - n = 0 := by omega
  have h1 : xs.length + 1 - n = 0 := by omega
  have hcond : ¬ (xs ++ [x]).length % 2 ^ w > size_t_of_int w (n : Int) := by
    rw [size_t_of_int_natCast w n (by omega)]
    have : (xs ++ [x]).length = xs.length + 1 := by simp
    rw [this, Nat.mod_eq_of_lt (by omega)]
    omega
  simp only [h0, h1, List.drop_zero, Delay.process, hcond, if_false]

theorem Delay.run_append (w : Nat) (st : Delay α × tendril α) (xs : List (tendril α))
    (x : tendril α) :
    Delay.run w st (xs ++ [x]) =
      ((Delay.run w st xs).1.process w x (Delay.run w st xs).2).2 := by
  induction xs generalizing st with
  | nil => rfl
  | cons y rest ih =>
    show Delay.run w (st.1.process w y st.2).2 (rest ++ [x]) = _
    rw [ih]
    rfl

theorem Delay.run_configured (w n : Nat) (hn : n + 1 < 2 ^ w) (out0 : tendril α)
    (xs : List (tendril α)) :
    (Delay.run w (Delay.configured (n : Int), out0) xs).1 =
      { num_ := (n : Int), queue_ := xs.drop (xs.length - n) } := by
  induction xs using List.reverseRecOn with
  | nil => simp [Delay.run, Delay.configured]
  | append_singleton xs x ih =>
    rw [Delay.run_append, ih]
    have hl : (xs ++ [x]).length = xs.length + 1 := by simp
    rw [hl]
    by_cases hle : n ≤ xs.length
    · have hlt : xs.length - n < (xs ++ [x]).length := by rw [hl]; omega
      rw [Delay.process_ok_of_le w n hn xs x _ _ hle (List.getElem?_eq_getElem hlt)]
    · rw [Delay.process_break_of_lt w n hn xs x _ (by omega)]

theorem Delay.trace_getElem? (w : Nat) (st : Delay α × tendril α) (xs : List (tendril α))
    (k : Nat) (x : tendril α) (hx : xs[k]? = some x) :
    (Delay.trace w st xs)[k]? =
      some (((Delay.run w st (xs.take k)).1.process w x (Delay.run w st (xs.take k)).2).1,
        ((Delay.run w st (xs.take k)).1.process w x (Delay.run w st (xs.take k)).2).2.2) := by
  induction xs generalizing st k with
  | nil => simp at hx
  | cons y rest ih =>
    cases k with
    | zero =>
      simp only [List.getElem?_cons_zero, Option.some.injEq] at hx
      subst hx
      simp [Delay.trace, Delay.run]
    | succ j =>
      simp only [List.getElem?_cons_succ] at hx
      simp only [Delay.trace, List.getElem?_cons_succ, List.take_succ_cons, Delay.run]
      exact ih _ j hx

/-- The `k`-th call of `process` on a freshly configured Delay with `num = n`, given what
the earlier calls were fed: it returns BREAK and leaves `out` alone when `k ≤ n`, and
returns OK and writes the input of call `k - n` when `n < k`. -/
theorem Delay.kth_call (w n : Nat) (hn : n + 1 < 2 ^ w) (out0 : tendril α)
    (xs : List (tendril α)) (k : Nat) (hk1 : 1 ≤ k) (hk : k ≤ xs.length) :
    ∃ r, (Delay.trace w (Delay.configured (n : Int), out0) xs)[k - 1]? = some r ∧
      (k ≤ n → r.1 = BREAK.value ∧
        r.2 = (Delay.run w (Delay.configured (n : Int), out0) (xs.take (k - 1))).2) ∧
      (n < k → r.1 = OK.value ∧ ∃ x, xs[k - n - 1]? = some x ∧
        r.2 = (Delay.run w (Delay.configured (n : Int), out0) (xs.take (k - 1))).2.write x) := by
  have hlt : k - 1 < xs.length := by omega
  have hx : xs[k - 1]? = some (xs[k - 1]) := List.getElem?_eq_getElem hlt
  refine ⟨_, Delay.trace_getElem? w _ xs (k - 1) _ hx, ?_, ?_⟩
  · intro hkn
    have hrun := Delay.run_configured w n hn out0 (xs.take (k - 1))
    have hlen : (xs.take (k - 1)).length = k - 1 := by
      rw [List.length_take]; omega
    have hb := Delay.process_break_of_lt w n hn (xs.take (k - 1)) (xs[k - 1])
      (Delay.run w (Delay.configured (n : Int), out0) (xs.take (k - 1))).2 (by omega)
    rw [← hrun] at hb
    rw [hb]
    exact ⟨rfl, rfl⟩
  · intro hnk
    have hrun := Delay.run_configured w n hn out0 (xs.take (k - 1))
    have hlen : (xs.take (k - 1)).length = k - 1 := by
      rw [List.length_take]; omega
    have hidx : k - n - 1 < xs.length := by omega
    have hy : (xs.take (k - 1) ++ [xs[k - 1]])[(xs.take (k - 1)).length - n]? =
        some (xs[k - n - 1]) := by
      have htk : xs.take (k - 1) ++ [xs[k - 1]] = xs.take (k - 1 + 1) := by
        rw [List.take_succ, hx]; rfl
      rw [htk, hlen, List.getElem?_take_of_lt (by omega)]
      have : k - 1 - n = k - n - 1 := by omega
      rw [this]
      exact List.getElem?_eq_getElem hidx
    have ho := Delay.process_ok_of_le w n hn (xs.take (k - 1)) (xs[k - 1])
      (Delay.run w (Delay.configured (n : Int), out0) (xs.take (k - 1))).2 _ (by omega) hy
    rw [← hrun] at ho
    rw [ho]
    exact ⟨rfl, _, List.getElem?_eq_getElem hidx, rfl⟩

theorem int_bound_lt_size_t (w n : Nat) (hn : n < 2 ^ 31) (hw : 32 ≤ w) : n + 1 < 2 ^ w := by
  have h1 : (2 : Nat) ^ 32 ≤ 2 ^ w := Nat.pow_le_pow_right (by decide) hw
  have h2 : (2 : Nat) ^ 31 + 1 < 2 ^ 32 := by decide
  omega

end delay_lemmas

/-- C4: for a freshly configured Delay with `num = n ≥ 0` (an `int`, on a platform whose
`size_t` has at least 32 bits), the `k`-th call of `process` (`k ≥ 1`) returns BREAK
exactly when `k ≤ n` and OK exactly when `k > n`, whatever the inputs. -/
theorem delay_returns_break_exactly_first_num_calls {α : Type} (w n : Nat) (hn : n < 2 ^ 31)
    (hw : 32 ≤ w) (out0 : tendril α) (xs : List (tendril α)) (k : Nat) (hk1 : 1 ≤ k)
    (hk : k ≤ xs.length) :
    ∃ r, (Delay.trace w (Delay.configured (n : Int), out0) xs)[k - 1]? = some r ∧
      (r.1 = BREAK.value ↔ k ≤ n) ∧ (r.1 = OK.value ↔ n < k) := by
  obtain ⟨r, hr, hb, ho⟩ :=
    Delay.kth_call w n (int_bound_lt_size_t w n hn hw) out0 xs k hk1 hk
  refine ⟨r, hr, ?_, ?_⟩
  · constructor
    · intro h
      by_contra hc
      have := (ho (by omega)).1
      rw [this] at h
      exact absurd h (by decide)
    · intro h; exact (hb h).1
  · constructor
    · intro h
      by_contra hc
      have := (hb (by omega)).1
      rw [this] at h
      exact absurd h (by decide)
    · intro h; exact (ho h).1

/-- C4, at scenario S2 (`num = 2`, five inputs): the second call returns BREAK and the
third returns OK. -/
theorem delay_returns_break_exactly_first_num_calls_witness :
    (∃ r, (Delay.trace 64 (Delay.configured ((2 : Nat) : Int), int_tendril 0) S2_inputs)[2 - 1]?
        = some r ∧ r.1 = BREAK.value) ∧
    (∃ r, (Delay.trace 64 (Delay.configured ((2 : Nat) : Int), int_tendril 0) S2_inputs)[3 - 1]?
        = some r ∧ r.1 = OK.value) := by
  refine ⟨?_, ?_⟩
  · obtain ⟨r, hr, hb, _⟩ := delay_returns_break_exactly_first_num_calls 64 2 (by decide)
      (by decide) (int_tendril 0) S2_inputs 2 (by decide) (by decide)
    exact ⟨r, hr, hb.mpr (by decide)⟩
  · obtain ⟨r, hr, _, ho⟩ := delay_returns_break_exactly_first_num_calls 64 2 (by decide)
      (by decide) (int_tendril 0) S2_inputs 3 (by decide) (by decide)
    exact ⟨r, hr, ho.mpr (by decide)⟩

/-- C5: for a freshly configured Delay with `num = n ≥ 0` and any inputs `xs`, the `k`-th
call with `k > n` leaves in `out` what was there before the call with the value of the
input of call `k - n` written into it, a `k`-th call that returns BREAK leaves `out` as
it was before the call, and a call of `process` that returns BREAK never changes `out`,
whatever the state of the Delay. -/
theorem delay_publishes_inputs_delayed_by_num {α : Type} (w n : Nat) (hn : n < 2 ^ 31)
    (hw : 32 ≤ w) (out0 : tendril α) (xs : List (tendril α)) (k : Nat) (hk1 : 1 ≤ k)
    (hk : k ≤ xs.length) :
    (∃ r, (Delay.trace w (Delay.configured (n : Int), out0) xs)[k - 1]? = some r ∧
      (n < k → ∃ x, xs[k - n - 1]? = some x ∧ r.2.val = x.val ∧
        r.2 = (Delay.run w (Delay.configured (n : Int), out0) (xs.take (k - 1))).2.write x) ∧
      (r.1 = BREAK.value →
        r.2 = (Delay.run w (Delay.configured (n : Int), out0) (xs.take (k - 1))).2)) ∧
    (∀ (d : Delay α) (x out : tendril α),
      (d.process w x out).1 = BREAK.value → (d.process w x out).2.2 = out) := by
  refine ⟨?_, ?_⟩
  · obtain ⟨r, hr, hb, ho⟩ :=
      Delay.kth_call w n (int_bound_lt_size_t w n hn hw) out0 xs k hk1 hk
    refine ⟨r, hr, ?_, ?_⟩
    · intro h
      obtain ⟨_, x, hx, hw2⟩ := ho h
      exact ⟨x, hx, by rw [hw2]; rfl, hw2⟩
    · intro h
      by_cases hkn : k ≤ n
      · exact (hb hkn).2
      · have := (ho (by omega)).1
        rw [this] at h
        exact absurd h (by decide)
  · intro d x out h
    unfold Delay.process at h ⊢
    by_cases hc : (d.queue_ ++ [x]).length % 2 ^ w > size_t_of_int w d.num_
    · simp only [hc, if_true] at h
      exact absurd h (by decide)
    · simp only [hc, if_false]

/-- C5, at scenario S2 (`num = 2`, inputs 1, 2, 3, 4, 5): calls 3, 4 and 5 leave 1, 2 and 3
in `out`. -/
theorem delay_publishes_inputs_delayed_by_num_witness :
    (∃ r, (Delay.trace 64 (Delay.configured ((2 : Nat) : Int), int_tendril 0) S2_inputs)[3 - 1]?
        = some r ∧ r.2.val = 1) ∧
    (∃ r, (Delay.trace 64 (Delay.configured ((2 : Nat) : Int), int_tendril 0) S2_inputs)[4 - 1]?
        = some r ∧ r.2.val = 2) ∧
    (∃ r, (Delay.trace 64 (Delay.configured ((2 : Nat) : Int), int_tendril 0) S2_inputs)[5 - 1]?
        = some r ∧ r.2.val = 3) := by
  refine ⟨?_, ?_, ?_⟩
  · obtain ⟨⟨r, hr, h1, _⟩, _⟩ := delay_publishes_inputs_delayed_by_num 64 2 (by decide)
      (by decide) (int_tendril 0) S2_inputs 3 (by decide) (by decide)
    obtain ⟨x, hx, hv, _⟩ := h1 (by decide)
    have hx1 : x = int_tendril 1 := (Option.some.inj hx).symm
    exact ⟨r, hr, by rw [hv, hx1]; rfl⟩
  · obtain ⟨⟨r, hr, h1, _⟩, _⟩ := delay_publishes_inputs_delayed_by_num 64 2 (by decide)
      (by decide) (int_tendril 0) S2_inputs 4 (by decide) (by decide)
    obtain ⟨x, hx, hv, _⟩ := h1 (by decide)
    have hx1 : x = int_tendril 2 := (Option.some.inj hx).symm
    exact ⟨r, hr, by rw [hv, hx1]; rfl⟩
  · obtain ⟨⟨r, hr, h1, _⟩, _⟩ := delay_publishes_inputs_delayed_by_num 64 2 (by decide)
      (by decide) (int_tendril 0) S2_inputs 5 (by decide) (by decide)
    obtain ⟨x, hx, hv, _⟩ := h1 (by decide)
    have hx1 : x = int_tendril 3 := (Option.some.inj hx).symm
    exact ⟨r, hr, by rw [hv, hx1]; rfl⟩

/-- C6: when the client class lacks a member function, dispatching it changes nothing:
`dispatch_declare_params`, `dispatch_declare_io`, `dispatch_configure`,
`dispatch_start` and `dispatch_stop` return with the cell and the tendrils they were
given as they were, and `dispatch_process` returns `OK` with the cell, the inputs and
the outputs as they were. -/
theorem absent_hooks_dispatch_as_noops {α S : Type} (I : Impl α S) (c : cell_ I)
    (params inputs outputs : tendrils α) :
    (I.declare_params = none → c.dispatch_declare_params params = .ok params) ∧
    (I.declare_io = none →
      c.dispatch_declare_io params inputs outputs = .ok (inputs, outputs)) ∧
    (I.configure = none →
      c.dispatch_configure params inputs outputs = .ok (c, params, inputs, outputs)) ∧
    (I.start = none → c.dispatch_start = .ok c) ∧
    (I.stop = none → c.dispatch_stop = .ok c) ∧
    (I.process = none → c.dispatch_process inputs outputs = .ok (OK, c, inputs, outputs)) := by
  refine ⟨?_, ?_, ?_, ?_, ?_, ?_⟩
  · intro h; simp only [cell_.dispatch_declare_params, h]
  · intro h; simp only [cell_.dispatch_declare_io, h]
  · intro h; simp only [cell_.dispatch_configure, h]
  · intro h; simp only [cell_.dispatch_start, h]
  · intro h; simp only [cell_.dispatch_stop, h]
  · intro h; simp only [cell_.dispatch_process, h]

/-- C6, at a cell of a class without any member function: `dispatch_process` returns `OK`
and the other dispatches return, all leaving the cell and the tendrils as they were. -/
theorem absent_hooks_dispatch_as_noops_witness :
    (plain_cell "A" [] [] 3).2.dispatch_declare_params [("p", int_tendril 1)]
      = .ok [("p", int_tendril 1)] ∧
    (plain_cell "A" [] [] 3).2.dispatch_start = .ok (plain_cell "A" [] [] 3).2 ∧
    (plain_cell "A" [] [] 3).2.dispatch_process [("in", int_tendril 1)] [("out", int_tendril 2)]
      = .ok (OK, (plain_cell "A" [] [] 3).2, [("in", int_tendril 1)], [("out", int_tendril 2)]) :=
  have h := absent_hooks_dispatch_as_noops (plain_Impl "Plain" false) (plain_cell "A" [] [] 3).2
    [("p", int_tendril 1)] [("in", int_tendril 1)] [("out", int_tendril 2)]
  ⟨h.1 rfl, h.2.2.2.1 rfl, h.2.2.2.2.2 rfl⟩

/-- C7: when the client class defines `process`, the implementation is allocated and its
`process` returns the int `r`, `dispatch_process` returns the `ReturnCode` whose numeric
value is `r`; the enumerators have the values 0, 1, 2, 3 and -1 and are pairwise
distinct, so the result is `OK` if and only if `r = 0`, and `QUIT`, `BREAK`, `CONTINUE`
and `UNKNOWN` are non-zero. -/
theorem dispatch_process_returns_code_of_impl {α S : Type} (I : Impl α S) (c : cell_ I)
    (f : S → tendrils α → tendrils α → Except exn (Int × S × tendrils α × tendrils α))
    (i : S) (inputs outputs : tendrils α) (r : Int) (after : S × tendrils α × tendrils α)
    (hf : I.process = some f) (hi : c.impl = some i)
    (hr : f i inputs outputs = .ok (r, after)) :
    (∃ rc c2, c.dispatch_process inputs outputs = .ok (rc, c2, after.2) ∧
      c2.impl = some after.1 ∧ rc.value = r ∧ (rc = OK ↔ r = 0)) ∧
    (OK.value = 0 ∧ QUIT.value = 1 ∧ BREAK.value = 2 ∧ CONTINUE.value = 3 ∧
      UNKNOWN.value = -1) ∧
    [OK, QUIT, BREAK, CONTINUE, UNKNOWN].Nodup ∧
    (QUIT.value ≠ 0 ∧ BREAK.value ≠ 0 ∧ CONTINUE.value ≠ 0 ∧ UNKNOWN.value ≠ 0) := by
  refine ⟨⟨ReturnCode.mk r, { c with impl := some after.1 }, ?_, rfl, rfl, ?_⟩, ?_, ?_, ?_⟩
  · simp only [cell_.dispatch_process, hf, hi, hr]
  · constructor
    · intro h; exact congrArg ReturnCode.value h
    · intro h; rw [h]; rfl
  · exact ⟨rfl, rfl, rfl, rfl, rfl⟩
  · decide
  · decide

/-- C7, at a cell whose `process` returns 2: `dispatch_process` returns `BREAK`. -/
theorem dispatch_process_returns_code_of_impl_witness :
    ∃ rc c2, (cell_.mk (I := returning_Impl 2) (cell.new "0x1") (some ())).dispatch_process
        [] [] = .ok (rc, c2, [], []) ∧ c2.impl = some () ∧ rc.value = 2 ∧ (rc = OK ↔ (2 : Int) = 0) :=
  (dispatch_process_returns_code_of_impl (returning_Impl 2)
    (cell_.mk (cell.new "0x1") (some ())) (fun i inputs outputs => .ok (2, i, inputs, outputs))
    () [] [] 2 ((), [], []) rfl rfl rfl).1

section strand_lemmas

variable {α S : Type}

theorem init_strand_static_lookup (k : String) (st : statics) :
    (init_strand_static k st).2.strands.lookup k = some (init_strand_static k st).1 := by
  unfold init_strand_static
  cases h : st.strands.lookup k with
  | some s => simpa using h
  | none => simp [List.lookup, strand.new]

theorem init_strand_static_preserves (k k2 : String) (st : statics) (s : strand)
    (h : st.strands.lookup k = some s) :
    (init_strand_static k2 st).2.strands.lookup k = some s := by
  unfold init_strand_static
  cases h2 : st.strands.lookup k2 with
  | some s2 => simpa using h
  | none =>
    have hne : (k == k2) = false := by
      cases hk : (k == k2) with
      | false => rfl
      | true =>
        have : k = k2 := by simpa using hk
        rw [this, h2] at h
        cases h
    simp [List.lookup, strand.new, hne, h]

theorem cell_new_preserves (J : Impl α S) (a k : String) (st : statics) (s : strand)
    (h : st.strands.lookup k = some s) :
    (cell_.new J a st).2.strands.lookup k = some s := by
  unfold cell_.new cell_.init_strand
  cases J.is_threadsafe with
  | true => simpa using h
  | false => simpa using init_strand_static_preserves k J.CELL_TYPE_NAME st s h

theorem cell_new_foldl_preserves (between : List (Impl α S × String)) (k : String)
    (st : statics) (s : strand) (h : st.strands.lookup k = some s) :
    (between.foldl (fun st2 J => (cell_.new J.1 J.2 st2).2) st).strands.lookup k = some s := by
  induction between generalizing st with
  | nil => exact h
  | cons J rest ih => exact ih _ (cell_new_preserves J.1 J.2 k st s h)

theorem cell_new_strand (I : Impl α S) (hI : I.is_threadsafe = false) (a : String)
    (st : statics) :
    (cell_.new I a st).1.strand_ = some (init_strand_static I.CELL_TYPE_NAME st).1 ∧
    (cell_.new I a st).2 = (init_strand_static I.CELL_TYPE_NAME st).2 := by
  simp [cell_.new, cell_.init_strand, hI]

theorem init_strand_static_of_lookup (k : String) (st : statics) (s : strand)
    (h : st.strands.lookup k = some s) : (init_strand_static k st).1 = s := by
  simp [init_strand_static, h]

end strand_lemmas

/-- C8, as the code has it: a cell whose class is not marked thread-safe holds, right
after construction, a strand, and a cell of the same class constructed later in the
process, after any number of other cells, holds that same strand. -/
theorem not_threadsafe_cells_of_one_class_share_strand {α S : Type} (I : Impl α S)
    (hI : I.is_threadsafe = false) (st : statics) (a1 a2 : String)
    (between : List (Impl α S × String)) :
    ∃ s, (cell_.new I a1 st).1.strand_ = some s ∧
      (cell_.new I a2
        (between.foldl (fun st2 J => (cell_.new J.1 J.2 st2).2) (cell_.new I a1 st).2)).1.strand_
        = some s := by
  refine ⟨(init_strand_static I.CELL_TYPE_NAME st).1, (cell_new_strand I hI a1 st).1, ?_⟩
  rw [(cell_new_strand I hI a2 _).1, (cell_new_strand I hI a1 st).2]
  congr 1
  apply init_strand_static_of_lookup
  exact cell_new_foldl_preserves between _ _ _ (init_strand_static_lookup _ st)

/-- C8, at two cells of the class `Plain` with a cell of the class `Other` constructed in
between: both hold the strand 0. -/
theorem not_threadsafe_cells_of_one_class_share_strand_witness :
    ∃ s, (cell_.new (plain_Impl "Plain" false) "0x1" statics.fresh).1.strand_ = some s ∧
      (cell_.new (plain_Impl "Plain" false) "0x3"
        ([(plain_Impl "Other" false, "0x2")].foldl (fun st2 J => (cell_.new J.1 J.2 st2).2)
          (cell_.new (plain_Impl "Plain" false) "0x1" statics.fresh).2)).1.strand_ = some s :=
  not_threadsafe_cells_of_one_class_share_strand (plain_Impl "Plain" false) rfl statics.fresh
    "0x1" "0x3" [(plain_Impl "Other" false, "0x2")]

/-- C8 as stated fails: in a fresh process, a cell of the not-thread-safe class `A` and a
cell of the not-thread-safe class `B` constructed after it hold strands of different
identity. -/
theorem strands_of_two_classes_differ :
    (cell_.new (plain_Impl "A" false) "0x1" statics.fresh).1.strand_ = some { id := 0 } ∧
    (cell_.new (plain_Impl "B" false) "0x2"
      (cell_.new (plain_Impl "A" false) "0x1" statics.fresh).2).1.strand_ = some { id := 1 } ∧
    (cell_.new (plain_Impl "A" false) "0x1" statics.fresh).1.strand_ ≠
      (cell_.new (plain_Impl "B" false) "0x2"
        (cell_.new (plain_Impl "A" false) "0x1" statics.fresh).2).1.strand_ := by
  decide

/-- C9: for every cell `c`, whatever its state, `clone` yields a cell of the same class
(same type name) with no parameters, inputs or outputs, no allocated implementation and
statistics at zero, and the clone is the same whatever the parameters, statistics and
other members of `c` are. -/
theorem clone_is_uninitialized_cell_of_same_class {α S : Type} (I : Impl α S) (c : cell_ I)
    (address : String) (st : statics) :
    (c.clone address st).1.dispatch_name = c.dispatch_name ∧
    (c.clone address st).1.parameters = [] ∧
    (c.clone address st).1.inputs = [] ∧
    (c.clone address st).1.outputs = [] ∧
    (c.clone address st).1.impl = none ∧
    (c.clone address st).1.stats = { ncalls := 0, total_ticks := 0, on_ := false } ∧
    (∀ c2 : cell_ I, c2.clone address st = c.clone address st) := by
  refine ⟨rfl, ?_, ?_, ?_, ?_, ?_, fun _ => rfl⟩ <;>
    (simp only [cell_.clone, cell_.dispatch_clone, cell_.new, cell_.init_strand]
     cases I.is_threadsafe <;> rfl)

/-- C9, at a configured cell with a parameter, ports and 3 ticks: its clone has no
parameters and statistics at zero. -/
theorem clone_is_uninitialized_cell_of_same_class_witness :
    ((plain_cell "A" [("in", int_tendril 1)] [("out", int_tendril 2)] 3).2.clone "0x9"
        statics.fresh).1.inputs = [] ∧
    ((plain_cell "A" [("in", int_tendril 1)] [("out", int_tendril 2)] 3).2.clone "0x9"
        statics.fresh).1.stats = { ncalls := 0, total_ticks := 0, on_ := false } :=
  have h := clone_is_uninitialized_cell_of_same_class (plain_Impl "Plain" false)
    (plain_cell "A" [("in", int_tendril 1)] [("out", int_tendril 2)] 3).2 "0x9" statics.fresh
  ⟨h.2.2.1, h.2.2.2.2.2.1⟩

/-- C10, as the code has it: when `new Impl` throws inside `init`, `init` throws a
`CellException`; if what was thrown derives from `std::exception`, it carries the phase
`Construction`, the type name of what was thrown, the name of the cell and the original
message; if not, it carries the phase `Construction`, the name of the cell and the
message `(unknown exception)`, and no type name. -/
theorem init_wraps_constructor_exception {α S : Type} (I : Impl α S) (c : cell_ I)
    (hc : c.impl = none) :
    (∀ type_name msg, I.ctor = .error (exn.std type_name msg) →
      c.init = .error { when := some "Construction", type := some type_name,
                        cell_name := some c.name, what := some msg }) ∧
    (I.ctor = .error exn.other →
      c.init = .error { when := some "Construction", type := none,
                        cell_name := some c.name, what := some "(unknown exception)" }) := by
  refine ⟨?_, ?_⟩
  · intro type_name msg h
    have ht : c.init_try = .error (exn.std type_name msg) := by
      simp only [cell_.init_try, hc, h]; rfl
    simp only [cell_.init, ht]
  · intro h
    have ht : c.init_try = .error exn.other := by
      simp only [cell_.init_try, hc, h]; rfl
    simp only [cell_.init, ht]

/-- C10, at a cell whose class has a constructor throwing a `std::runtime_error`: the
`CellException` carries all four infos. -/
theorem init_wraps_constructor_exception_witness :
    (cell_.mk (I := throwing_Impl (exn.std "std::runtime_error" "no camera"))
        (cell.new "0x1") none).init =
      .error { when := some "Construction", type := some "std::runtime_error",
               cell_name := some "0x1", what := some "no camera" } :=
  (init_wraps_constructor_exception (throwing_Impl (exn.std "std::runtime_error" "no camera"))
    (cell_.mk (cell.new "0x1") none) rfl).1 "std::runtime_error" "no camera" rfl

/-- C10 as stated fails: when `new Impl` throws something that does not derive from
`std::exception`, the `CellException` of `init` carries no type name, and its message is
`(unknown exception)`. -/
theorem init_unknown_exception_has_no_type :
    (cell_.mk (I := throwing_Impl exn.other) (cell.new "0x1") none).init =
      .error { when := some "Construction", type := none,
               cell_name := some "0x1", what := some "(unknown exception)" } := by
  rfl

/-- C12: for a freshly configured Delay with `num = n ≥ 0`, after `process` has been called
once for each of the inputs `xs` (so after its `k`-th call, `k` the length of `xs`, zero
included), the queue holds exactly the last `min k n` inputs in arrival order; so it
holds `min k n` values, never more than `num`. -/
theorem delay_buffer_holds_last_num_inputs {α : Type} (w n : Nat) (hn : n < 2 ^ 31)
    (hw : 32 ≤ w) (out0 : tendril α) (xs : List (tendril α)) :
    (Delay.run w (Delay.configured (n : Int), out0) xs).1.queue_ =
      xs.drop (xs.length - min xs.length n) ∧
    (Delay.run w (Delay.configured (n : Int), out0) xs).1.queue_.length = min xs.length n ∧
    (Delay.run w (Delay.configured (n : Int), out0) xs).1.queue_.length ≤ n := by
  have hrun := Delay.run_configured w n (int_bound_lt_size_t w n hn hw) out0 xs
  have hsub : xs.length - min xs.length n = xs.length - n := by omega
  rw [hrun, hsub]
  simp only [List.length_drop]
  refine ⟨trivial, ?_, ?_⟩ <;> omega

/-- C12, at scenario S2 (`num = 2`, inputs 1, 2, 3, 4, 5): after the fifth call the queue
holds 4 and 5. -/
theorem delay_buffer_holds_last_num_inputs_witness :
    (Delay.run 64 (Delay.configured ((2 : Nat) : Int), int_tendril 0) S2_inputs).1.queue_ =
      [int_tendril 4, int_tendril 5] :=
  (delay_buffer_holds_last_num_inputs 64 2 (by decide) (by decide) (int_tendril 0)
    S2_inputs).1

section negative_num_lemmas

variable {α : Type}

theorem size_t_of_int_neg (w : Nat) (num : Int) (hlo : -(2 : Int) ^ w ≤ num) (hneg : num < 0) :
    size_t_of_int w num = ((2 : Int) ^ w + num).toNat := by
  unfold size_t_of_int
  have h1 : num % (2 : Int) ^ w = (num + (2 : Int) ^ w) % (2 : Int) ^ w :=
    (Int.add_emod_self).symm
  rw [h1, Int.emod_eq_of_lt (by omega) (by omega), Int.add_comm]

theorem pow_half_le (w : Nat) (hw : 32 ≤ w) :
    (2 : Nat) ^ w = 2 * 2 ^ (w - 1) ∧ (2 : Nat) ^ 31 ≤ 2 ^ (w - 1) := by
  refine ⟨?_, Nat.pow_le_pow_right (by decide) (by omega)⟩
  have : w = (w - 1) + 1 := by omega
  conv_lhs => rw [this]
  rw [Nat.pow_succ]
  omega

theorem size_t_of_int_neg_ge (w : Nat) (num : Int) (hw : 32 ≤ w) (hlo : -(2 : Int) ^ 31 ≤ num)
    (hneg : num < 0) : 2 ^ (w - 1) ≤ size_t_of_int w num := by
  obtain ⟨h2, h31⟩ := pow_half_le w hw
  have hc : ((2 : Int) ^ w) = (((2 : Nat) ^ w : Nat) : Int) := by push_cast; rfl
  have hc31 : ((2 : Int) ^ 31) = (((2 : Nat) ^ 31 : Nat) : Int) := by norm_num
  rw [size_t_of_int_neg w num (by rw [hc]; rw [hc31] at hlo; omega) hneg, hc]
  rw [hc31] at hlo
  omega

theorem Delay.process_break_of_neg (w : Nat) (num : Int) (hw : 32 ≤ w)
    (hlo : -(2 : Int) ^ 31 ≤ num) (hneg : num < 0) (q : List (tendril α)) (x out : tendril α)
    (hq : q.length + 1 ≤ 2 ^ (w - 1)) :
    Delay.process w { num_ := num, queue_ := q } x out =
      (BREAK.value, { num_ := num, queue_ := q ++ [x] }, out) := by
  have hge := size_t_of_int_neg_ge w num hw hlo hneg
  have hlen : (q ++ [x]).length = q.length + 1 := by simp
  have hmod : (q ++ [x]).length % 2 ^ w ≤ (q ++ [x]).length := Nat.mod_le _ _
  have hcond : ¬ (q ++ [x]).length % 2 ^ w > size_t_of_int w num := by omega
  simp only [Delay.process, hcond, if_false]

theorem Delay.run_of_neg (w : Nat) (num : Int) (hw : 32 ≤ w) (hlo : -(2 : Int) ^ 31 ≤ num)
    (hneg : num < 0) (out : tendril α) (xs q : List (tendril α))
    (hq : q.length + xs.length ≤ 2 ^ (w - 1)) :
    Delay.run w ({ num_ := num, queue_ := q }, out) xs =
      ({ num_ := num, queue_ := q ++ xs }, out) ∧
    Delay.trace w ({ num_ := num, queue_ := q }, out) xs =
      xs.map (fun _ => (BREAK.value, out)) := by
  induction xs generalizing q with
  | nil => simp [Delay.run, Delay.trace]
  | cons x rest ih =>
    have hlen : (x :: rest).length = rest.length + 1 := rfl
    have hp := Delay.process_break_of_neg w num hw hlo hneg q x out (by omega)
    have ih2 := ih (q ++ [x]) (by simp only [List.length_append, List.length_singleton]; omega)
    simp only [Delay.run, Delay.trace, hp, List.map_cons]
    rw [ih2.1, ih2.2]
    simp

end negative_num_lemmas

/-- C13: for a Delay whose `num` is a negative `int`, on a platform whose `size_t` has
`w ≥ 32` bits, `num` enters the comparison as `2^w + num`; as long as the queue holds no
more than `2^(w-1)` tendrils (more do not fit in the address space), every call of
`process` returns BREAK and leaves `out` as it was, and the queue holds all the inputs
received, one more per call. -/
theorem delay_negative_num_always_breaks {α : Type} (w : Nat) (num : Int) (hw : 32 ≤ w)
    (hlo : -(2 : Int) ^ 31 ≤ num) (hneg : num < 0) (out0 : tendril α) (xs : List (tendril α))
    (hfit : xs.length ≤ 2 ^ (w - 1)) :
    size_t_of_int w num = ((2 : Int) ^ w + num).toNat ∧
    Delay.trace w (Delay.configured num, out0) xs = xs.map (fun _ => (BREAK.value, out0)) ∧
    Delay.run w (Delay.configured num, out0) xs = ({ num_ := num, queue_ := xs }, out0) ∧
    (Delay.run w (Delay.configured num, out0) xs).1.queue_.length = xs.length := by
  have hpow : -(2 : Int) ^ w ≤ -(2 : Int) ^ 31 := by
    have : (2 : Int) ^ 31 ≤ (2 : Int) ^ w := by
      have h := Nat.pow_le_pow_right (show 0 < 2 by decide) (show 31 ≤ w by omega)
      exact_mod_cast h
    omega
  have h := Delay.run_of_neg w num hw hlo hneg out0 xs [] (by simpa using hfit)
  simp only [List.nil_append] at h
  refine ⟨size_t_of_int_neg w num (by omega) hneg, h.2, h.1, ?_⟩
  show (Delay.run w ({ num_ := num, queue_ := [] }, out0) xs).1.queue_.length = xs.length
  rw [h.1]

/-- C13, at `num = -1` on a 64-bit platform with the inputs 1, 2, 3, 4, 5: all five calls
return BREAK and leave `out` alone, and the queue holds the five inputs. -/
theorem delay_negative_num_always_breaks_witness :
    Delay.trace 64 (Delay.configured (-1), int_tendril 0) S2_inputs =
      S2_inputs.map (fun _ => (BREAK.value, int_tendril 0)) ∧
    (Delay.run 64 (Delay.configured (-1), int_tendril 0) S2_inputs).1.queue_.length = 5 :=
  have h := delay_negative_num_always_breaks 64 (-1) (by decide) (by norm_num) (by decide)
    (int_tendril 0) S2_inputs (by decide)
  ⟨h.2.1, h.2.2.2⟩

/-- C14: `reset_ticks` leaves the cells and edges of the plasm in place, changing only the
tick counter of each cell and the contents of each edge: every vertex carries the cell
it carried with `tick_` set to 0, every edge descriptor has the source, target,
`from_port` and `to_port` it had with an empty FIFO, `mv_map` is as it was, and the
drain loop of each edge ends after exactly as many `pop_front` calls as the edge had
values. -/
theorem reset_ticks_changes_only_ticks_and_edge_contents {α S : Type} (p : plasm α S) :
    p.reset_ticks.impl_.graph.vertices =
      p.impl_.graph.vertices.map (fun m => m.set { m.get with tick_ := 0 }) ∧
    p.reset_ticks.impl_.graph.edges =
      p.impl_.graph.edges.map (fun ed => { ed with e := { ed.e with deque := [] } }) ∧
    p.reset_ticks.impl_.mv_map = p.impl_.mv_map ∧
    (∀ ed ∈ p.impl_.graph.edges,
      drain_loop ed.e 0 = ({ ed.e with deque := [] }, ed.e.size)) := by
  refine ⟨?_, ?_, rfl, ?_⟩
  · show reset_tick_loop p.impl_.graph.vertices = _
    induction p.impl_.graph.vertices with
    | nil => rfl
    | cons c rest ih => simp only [reset_tick_loop, List.map_cons, ih]; rfl
  · show drain_edges_loop p.impl_.graph.edges = _
    induction p.impl_.graph.edges with
    | nil => rfl
    | cons c rest ih => simp only [drain_edges_loop, List.map_cons, ih, drain_loop_eq]
  · intro ed _
    rw [drain_loop_eq, Nat.zero_add]

/-- C14, at a plasm with ticks 3 and 5 and an edge from `out` of vertex 0 to `in` of
vertex 1 holding two values: the edge keeps its endpoints and ports, and its drain loop
makes two `pop_front` calls. -/
theorem reset_ticks_changes_only_ticks_and_edge_contents_witness :
    running_plasm.reset_ticks.impl_.graph.edges =
      [{ source := 0, target := 1,
         e := { from_port := "out", to_port := "in", deque := [] } }] ∧
    (∀ ed ∈ running_plasm.impl_.graph.edges, (drain_loop ed.e 0).2 = 2) := by
  have h := reset_ticks_changes_only_ticks_and_edge_contents running_plasm
  refine ⟨h.2.1, ?_⟩
  intro ed hed
  rw [h.2.2.2 ed hed]
  simp only [running_plasm, List.mem_singleton] at hed
  rw [hed]
  rfl

/-- C15: on a cell whose implementation is already allocated, `init` returns true and
leaves the cell, its implementation instance and its parameters, inputs and outputs
included, as it was; and when `init` returns on any cell, it returns true and a second
`init` on the cell it leaves returns true and leaves that cell as it is. -/
theorem init_is_idempotent {α S : Type} (I : Impl α S) (c : cell_ I) :
    (∀ i, c.impl = some i → c.init = .ok (true, c)) ∧
    (∀ r, c.init = .ok r → r.1 = true ∧ r.2.impl.isSome = true ∧ r.2.init = .ok (true, r.2)) := by
  have first : ∀ (d : cell_ I) i, d.impl = some i → d.init = .ok (true, d) := by
    intro d i hi
    have ht : d.init_try = .ok (true, d) := by
      simp only [cell_.init_try, hi]; rfl
    simp only [cell_.init, ht]
  refine ⟨first c, ?_⟩
  intro r hr
  have ht : c.init_try = .ok r := by
    unfold cell_.init at hr
    cases h : c.init_try with
    | ok r2 => rw [h] at hr; simp only [Except.ok.injEq] at hr; rw [hr]
    | error e =>
      rw [h] at hr
      cases e <;> simp at hr
  have hsome : r.1 = true ∧ r.2.impl.isSome = true := by
    unfold cell_.init_try at ht
    cases hi : c.impl with
    | some i =>
      simp only [hi] at ht
      cases ht
      exact ⟨rfl, by rw [hi]; rfl⟩
    | none =>
      simp only [hi] at ht
      cases h0 : I.ctor with
      | error e => rw [h0] at ht; cases ht
      | ok i0 =>
        rw [h0] at ht
        cases h1 : I.realize_potential tendrils_role.parameters c.parameters i0 with
        | error e => simp [h1, bind, Except.bind] at ht
        | ok r1 =>
          cases h2 : I.realize_potential tendrils_role.inputs c.inputs r1.2 with
          | error e => simp [h1, h2, bind, Except.bind] at ht
          | ok r2 =>
            cases h3 : I.realize_potential tendrils_role.outputs c.outputs r2.2 with
            | error e => simp [h1, h2, h3, bind, Except.bind] at ht
            | ok r3 =>
              simp only [h1, h2, h3, bind, Except.bind, pure, Except.pure,
                Except.ok.injEq] at ht
              rw [← ht]
              exact ⟨rfl, rfl⟩
  refine ⟨hsome.1, hsome.2, ?_⟩
  cases hi : r.2.impl with
  | none => rw [hi] at hsome; simp at hsome
  | some i => exact first r.2 i hi

/-- C15, at a cell of a class with a constructor that returns: the first `init` allocates
the implementation and returns true, and the second returns true and changes nothing. -/
theorem init_is_idempotent_witness :
    ∃ r, (cell_.mk (I := plain_Impl "Plain" false) (cell.new "0x1") none).init = .ok r ∧
      r.1 = true ∧ r.2.impl = some () ∧ r.2.init = .ok (true, r.2) :=
  ⟨(true, cell_.mk (cell.new "0x1") (some ())), rfl, rfl, rfl,
    ((init_is_idempotent (plain_Impl "Plain" false)
      (cell_.mk (cell.new "0x1") none)).2 (true, cell_.mk (cell.new "0x1") (some ())) rfl).2.2⟩

section configure_lemmas

variable {α S : Type}

theorem configure_entry_spec (g : graph_t α S) (v : Nat)
    (hret : ∀ m, g.vertices[v]? = some m → ∃ c, m.2.configure = .ok c) :
    ∃ g2, configure_entry g v = .ok g2 ∧ g2.edges = g.edges ∧
      (∀ u, u ≠ v → g2.vertices[u]? = g.vertices[u]?) ∧
      (∀ m, g.vertices[v]? = some m →
        ∃ c, m.2.configure = .ok c ∧ g2.vertices[v]? = some ⟨m.1, c⟩) := by
  unfold configure_entry
  cases hm : g.vertices[v]? with
  | none =>
    refine ⟨g, rfl, rfl, fun _ _ => rfl, ?_⟩
    intro m h; cases h
  | some m =>
    obtain ⟨c, hc⟩ := hret m hm
    refine ⟨{ g with vertices := g.vertices.set v ⟨m.1, c⟩ }, by simp only [hc], rfl, ?_, ?_⟩
    · intro u hu
      exact List.getElem?_set_ne (Ne.symm hu)
    · intro m2 hm2
      cases hm2
      refine ⟨c, hc, ?_⟩
      have hlt : v < g.vertices.length := by
        obtain ⟨h, _⟩ := List.getElem?_eq_some.mp hm
        exact h
      exact List.getElem?_set_self hlt

theorem configure_loop_spec (g : graph_t α S) (l : List Nat) (hnd : l.Nodup)
    (hret : ∀ v ∈ l, ∀ m, g.vertices[v]? = some m → ∃ c, m.2.configure = .ok c) :
    ∃ g2, configure_loop g l = .ok g2 ∧ g2.edges = g.edges ∧
      (∀ u, u ∉ l → g2.vertices[u]? = g.vertices[u]?) ∧
      (∀ v ∈ l, ∀ m, g.vertices[v]? = some m →
        ∃ c, m.2.configure = .ok c ∧ g2.vertices[v]? = some ⟨m.1, c⟩) := by
  induction l generalizing g with
  | nil => exact ⟨g, rfl, rfl, fun _ _ => rfl, fun v hv => absurd hv (List.not_mem_nil v)⟩
  | cons v rest ih =>
    obtain ⟨hv, hrest⟩ := List.nodup_cons.mp hnd
    obtain ⟨g1, h1, he1, hother1, hself1⟩ :=
      configure_entry_spec g v (hret v (List.mem_cons_self _ _))
    have hne : ∀ u ∈ rest, u ≠ v := fun u hu heq => hv (heq ▸ hu)
    obtain ⟨g2, h2, he2, hother2, hself2⟩ := ih g1 hrest (by
      intro u hu m hm
      rw [hother1 u (hne u hu)] at hm
      exact hret u (List.mem_cons_of_mem _ hu) m hm)
    refine ⟨g2, by simp only [configure_loop, h1, h2], he2.trans he1, ?_, ?_⟩
    · intro u hu
      have hu1 : u ≠ v := fun h => hu (h ▸ List.mem_cons_self _ _)
      have hu2 : u ∉ rest := fun h => hu (List.mem_cons_of_mem _ h)
      rw [hother2 u hu2, hother1 u hu1]
    · intro u hu m hm
      rcases List.mem_cons.mp hu with heq | hin
      · subst heq
        obtain ⟨c, hc, hg1⟩ := hself1 m hm
        exact ⟨c, hc, by rw [hother2 u hv, hg1]⟩
      · have hm1 : g1.vertices[u]? = some m := by rw [hother1 u (hne u hin)]; exact hm
        exact hself2 u hin m hm1

theorem configure_ignores_declare_members {α S : Type} (I : Impl α S) (c : cell_ I)
    (dp : Option (tendrils α → Except exn (tendrils α)))
    (dio : Option (tendrils α → tendrils α → tendrils α →
      Except exn (tendrils α × tendrils α))) :
    (cell_.configure (I := { I with declare_params := dp, declare_io := dio })
        (cell_.mk c.tocell c.impl)).map (fun r => (r.tocell, r.impl)) =
      c.configure.map (fun r => (r.tocell, r.impl)) := by
  obtain ⟨base, impl⟩ := c
  unfold cell_.configure cell_.init cell_.init_try cell_.dispatch_configure
  simp only []
  cases base.configured with
  | true => rfl
  | false =>
    simp only [Bool.false_eq_true, if_false]
    cases impl with
    | some i =>
      simp only [pure, Except.pure]
      cases I.configure with
      | none => rfl
      | some f =>
        simp only []
        cases f i base.parameters base.inputs base.outputs with
        | error e => rfl
        | ok r => rfl
    | none =>
      simp only []
      cases I.ctor with
      | error e => cases e <;> rfl
      | ok i0 =>
        simp only [bind, Except.bind]
        cases h1 : I.realize_potential tendrils_role.parameters base.parameters i0 with
        | error e => cases e <;> rfl
        | ok r1 =>
          simp only []
          cases h2 : I.realize_potential tendrils_role.inputs base.inputs r1.2 with
          | error e => cases e <;> rfl
          | ok r2 =>
            simp only []
            cases h3 : I.realize_potential tendrils_role.outputs base.outputs r2.2 with
            | error e => cases e <;> rfl
            | ok r3 =>
              simp only [pure, Except.pure]
              cases I.configure with
              | none => rfl
              | some f =>
                simp only []
                cases f r3.2 r1.1 r2.1 r3.1 with
                | error e => rfl
                | ok r => rfl

end configure_lemmas

/-- C11, as the code has it: `configure_all` calls `configure()` on the cell of each entry
of `mv_map`, and nothing else. When `mv_map` lists no vertex twice and `configure()`
returns on each of its cells, `configure_all` returns, every listed vertex carries its
cell as `configure()` leaves it, and the other vertices, the edges and `mv_map` are as
they were. `configure()` does not dispatch `declare_params` or `declare_io`: what it
does to a cell is the same whatever these two members of the client class are. -/
theorem configure_all_calls_configure_on_each_cell {α S : Type} (p : plasm α S)
    (hnd : p.impl_.mv_map.Nodup)
    (hret : ∀ v ∈ p.impl_.mv_map, ∀ m, p.impl_.graph.vertices[v]? = some m →
      ∃ c, m.2.configure = .ok c) :
    (∃ p2, p.configure_all = .ok p2 ∧
      p2.impl_.graph.edges = p.impl_.graph.edges ∧
      p2.impl_.mv_map = p.impl_.mv_map ∧
      (∀ v ∈ p.impl_.mv_map, ∀ m, p.impl_.graph.vertices[v]? = some m →
        ∃ c, m.2.configure = .ok c ∧ p2.impl_.graph.vertices[v]? = some ⟨m.1, c⟩) ∧
      (∀ u, u ∉ p.impl_.mv_map → p2.impl_.graph.vertices[u]? = p.impl_.graph.vertices[u]?)) ∧
    (∀ (I : Impl α S) (c : cell_ I) (dp : Option (tendrils α → Except exn (tendrils α)))
      (dio : Option (tendrils α → tendrils α → tendrils α →
        Except exn (tendrils α × tendrils α))),
      (cell_.configure (I := { I with declare_params := dp, declare_io := dio })
          (cell_.mk c.tocell c.impl)).map (fun r => (r.tocell, r.impl)) =
        c.configure.map (fun r => (r.tocell, r.impl))) := by
  refine ⟨?_, configure_ignores_declare_members⟩
  obtain ⟨g2, h, he, hother, hself⟩ := configure_loop_spec p.impl_.graph p.impl_.mv_map hnd hret
  exact ⟨{ p with impl_ := { p.impl_ with graph := g2 } },
    by simp only [plasm.configure_all, h], he, rfl, hself, hother⟩

/-- C11, at a plasm holding one cell fresh from its constructor: `configure_all` returns
and leaves the cell configured, with its implementation allocated. -/
theorem configure_all_calls_configure_on_each_cell_witness :
    ∃ p2, created_plasm.configure_all = .ok p2 ∧
      (∀ v ∈ created_plasm.impl_.mv_map, ∀ m, created_plasm.impl_.graph.vertices[v]? = some m →
        ∃ c, m.2.configure = .ok c ∧ p2.impl_.graph.vertices[v]? = some ⟨m.1, c⟩) ∧
      p2.impl_.graph.vertices.map (fun m => (m.get.configured, m.2.impl)) = [(true, some ())] := by
  obtain ⟨⟨p2, h, _, _, hself, _⟩, _⟩ :=
    configure_all_calls_configure_on_each_cell created_plasm (by decide) (by
      intro v hv m hm
      simp only [created_plasm, List.mem_singleton] at hv
      subst hv
      simp only [created_plasm, List.getElem?_cons_zero, Option.some.injEq] at hm
      subst hm
      exact ⟨_, rfl⟩)
  refine ⟨p2, h, hself, ?_⟩
  have h2 : created_plasm.configure_all = .ok
      { impl_ :=
          { graph :=
              { vertices := [⟨declaring_Impl,
                  { created_cell with configured := true, impl := some () }⟩],
                edges := [] }
            mv_map := [0] } } := rfl
  rw [h2] at h
  cases h
  rfl

/-- C11 as stated fails: on a plasm holding one cell fresh from its constructor, whose
class declares a parameter `num`, an input `in` and an output `out`, `configure_all`
returns and leaves the cell without parameters, inputs and outputs, whereas the cell
driven through `declare_params`, then `declare_io`, then `configure` has them. -/
theorem configure_all_skips_declare_params_and_declare_io :
    ∃ p2 c2, created_plasm.configure_all = .ok p2 ∧
      p2.impl_.graph.vertices.map
        (fun m => (m.get.parameters, m.get.inputs, m.get.outputs)) = [([], [], [])] ∧
      created_cell.declare_params_declare_io_configure = .ok c2 ∧
      (c2.parameters, c2.inputs, c2.outputs) =
        ([("num", int_tendril 2)], [("in", int_tendril 0)], [("out", int_tendril 0)]) :=
  ⟨_, _, rfl, rfl, rfl, rfl⟩

end ecto
